import Mathlib

/-!
# Verification of the per-CPU reader-writer semaphore (`percpu-rwsem.c`)

This file gives a shallow embedding of the biased reader-writer lock found in
the repository (`percpu_init_rwsem`, `update_fast_ctr`, `percpu_down_read`,
`percpu_up_read`, `clear_fast_ctr`, `percpu_down_write`, `percpu_up_write`)
as an executable labelled transition system, and proves the specification's
claims about it.

The embedding:

* `Sem n r w` is the global state: the lock structure (fields named after
  `struct percpu_rw_semaphore`) together with the local program counters of
  `r` reader threads and `w` writer threads over `n` CPUs.
* Each atomic machine action of the source is one `Label`; `stepExec`
  executes a single labelled action, returning `none` when the action is not
  enabled (blocked, or the thread is not at that point of its program).
* The `preempt_disable`/`preempt_enable` window of `update_fast_ctr` is
  modelled by the `inNpr` flag implicit in the reader program counters; the
  writer's `synchronize_sched_expedited` barrier is the `wSync`/`wRelSync`
  action, enabled only when no thread is inside such a window.  This exposes
  the documented fast-path race (check `writer_mutex`, then add) to the
  interleaving semantics exactly as the source comments describe it.
* The external kernel primitives (mutex, rw_semaphore, waitqueue) are
  modelled by the boolean/counter fields below, with their standard
  blocking semantics reflected in the enabledness conditions of `stepExec`.

Machine integers are modelled as `Int` in the transition system; the exact
correspondence with the 32-bit unsigned arithmetic the source actually
performs (`unsigned int val`, `unsigned int sum`) is proved separately in
the `U32` section at the end of the file.
-/

namespace PercpuRwsem

/-- Program counter of one reader thread walking through
`percpu_down_read` / `percpu_up_read`.  The `cpu` argument of the
non-preemptible states records the CPU the thread is pinned to while
preemption is disabled; `viaFast` records which acquire path was taken. -/
inductive RSt (n : Nat) where
  /-- not inside any read-side operation -/
  | idle : RSt n
  /-- in `update_fast_ctr(+1)`: preemption disabled, about to test `writer_mutex` -/
  | acqNpr (cpu : Fin n) : RSt n
  /-- in `update_fast_ctr(+1)`: saw `writer_mutex` unlocked, about to `__this_cpu_add(+1)` -/
  | acqAdd (cpu : Fin n) : RSt n
  /-- slow path of `percpu_down_read`: blocked at `down_read(&rw_sem)` -/
  | slowDown : RSt n
  /-- slow path: holds `rw_sem` shared, about to `atomic_inc(&slow_read_ctr)` -/
  | slowInc : RSt n
  /-- slow path: holds `rw_sem` shared, about to `up_read(&rw_sem)` -/
  | slowUp : RSt n
  /-- read-side critical section open (`percpu_down_read` returned) -/
  | reading (viaFast : Bool) : RSt n
  /-- in `update_fast_ctr(-1)` of `percpu_up_read`: preemption disabled, about to test `writer_mutex` -/
  | relNpr (cpu : Fin n) (viaFast : Bool) : RSt n
  /-- in `update_fast_ctr(-1)`: saw `writer_mutex` unlocked, about to `__this_cpu_add(-1)` -/
  | relDec (cpu : Fin n) (viaFast : Bool) : RSt n
  /-- slow path of `percpu_up_read`: about to `atomic_dec_and_test(&slow_read_ctr)` -/
  | relSlowDec (viaFast : Bool) : RSt n
  deriving DecidableEq, Repr


/-- Program counter of one writer thread walking through
`percpu_down_write` / `percpu_up_write`. -/
inductive WSt where
  /-- not inside any write-side operation -/
  | widle : WSt
  /-- holds `writer_mutex`, about to `synchronize_sched_expedited()` -/
  | wLocked : WSt
  /-- barrier done, about to drain (`atomic_add(clear_fast_ctr(brw), &slow_read_ctr)`) -/
  | wSynced : WSt
  /-- drain done, about to `down_write(&rw_sem)` -/
  | wDrained : WSt
  /-- holds `rw_sem` exclusively, in `wait_event(write_waitq, !slow_read_ctr)` -/
  | wDowned : WSt
  /-- `percpu_down_write` returned: full exclusivity -/
  | wCrit : WSt
  /-- in `percpu_up_write`: `up_write(&rw_sem)` done, about to `synchronize_sched_expedited()` -/
  | wRel : WSt
  /-- in `percpu_up_write`: release barrier done, about to `mutex_unlock(&writer_mutex)` -/
  | wRelSynced : WSt
  deriving DecidableEq, Repr


/-- Global state: the `struct percpu_rw_semaphore` fields plus the thread
program counters.  `rw_readers`/`rw_writer` model the external
`rw_semaphore` (`rw_sem`), `wakes` counts `wake_up_all(&write_waitq)` calls. -/
structure Sem (n r w : Nat) where
  fast_read_ctr : Fin n → Int
  writer_mutex : Bool
  rw_readers : Nat
  rw_writer : Bool
  slow_read_ctr : Int
  wakes : Nat
  rst : Fin r → RSt n
  wst : Fin w → WSt
  deriving DecidableEq


/-- Is the reader inside a `preempt_disable`d window of `update_fast_ctr`? -/
def inNpr {n : Nat} : RSt n → Bool
  | .acqNpr _ => true
  | .acqAdd _ => true
  | .relNpr _ _ => true
  | .relDec _ _ => true
  | _ => false


/-- The reader has performed its increment (fast or slow) and not yet its
matching decrement: it is accounted for in `fast_read_ctr`/`slow_read_ctr`. -/
def counted {n : Nat} : RSt n → Bool
  | .slowUp => true
  | .reading _ => true
  | .relNpr _ _ => true
  | .relDec _ _ => true
  | .relSlowDec _ => true
  | _ => false


/-- The reader's critical section is open: `percpu_down_read` has returned
and the matching `percpu_up_read` has not yet completed. -/
def csOpen {n : Nat} : RSt n → Bool
  | .reading _ => true
  | .relNpr _ _ => true
  | .relDec _ _ => true
  | .relSlowDec _ => true
  | _ => false


/-- The reader holds `rw_sem` in shared mode. -/
def slowSem {n : Nat} : RSt n → Bool
  | .slowInc => true
  | .slowUp => true
  | _ => false


/-- The reader has passed the `mutex_is_locked` test while the mutex was
unlocked and has a pending fast-path counter update. -/
def pendingFast {n : Nat} : RSt n → Bool
  | .acqAdd _ => true
  | .relDec _ _ => true
  | _ => false


/-- The reader never left the fast path (no slow-path state). -/
def fastPath {n : Nat} : RSt n → Bool
  | .slowDown => false
  | .slowInc => false
  | .slowUp => false
  | .relSlowDec _ => false
  | .reading viaFast => viaFast
  | _ => true


/-- The writer holds `writer_mutex`. -/
def holdsMutex : WSt → Bool
  | .widle => false
  | _ => true


/-- The writer holds `rw_sem` exclusively. -/
def holdsRw : WSt → Bool
  | .wDowned => true
  | .wCrit => true
  | _ => false


/-- The writer is past its acquire-side `synchronize_sched_expedited()` and
has not yet released `writer_mutex`. -/
def postBarrier : WSt → Bool
  | .wSynced => true
  | .wDrained => true
  | .wDowned => true
  | .wCrit => true
  | .wRel => true
  | .wRelSynced => true
  | _ => false


/-- The writer has drained the fast counters and still blocks all fast-path
updates: between the drain and `percpu_up_write`'s `up_write`. -/
def fastFrozen : WSt → Bool
  | .wDrained => true
  | .wDowned => true
  | .wCrit => true
  | _ => false


/-- One atomic machine action of the source, tagged with the acting thread
(and, for actions that start a `preempt_disable` window, the CPU the thread
happens to run on, chosen nondeterministically by the scheduler). -/
inductive Label (n r w : Nat) where
  /-- reader `i` calls `percpu_down_read`: `preempt_disable()` on CPU `cpu` -/
  | rAcqStart (i : Fin r) (cpu : Fin n) : Label n r w
  /-- reader `i` tests `mutex_is_locked(&writer_mutex)` in `update_fast_ctr(+1)` -/
  | rAcqCheck (i : Fin r) : Label n r w
  /-- reader `i` performs `__this_cpu_add(*fast_read_ctr, +1)` and `preempt_enable()` -/
  | rAcqAdd (i : Fin r) : Label n r w
  /-- reader `i` completes `down_read(&rw_sem)` (slow path) -/
  | rSlowDown (i : Fin r) : Label n r w
  /-- reader `i` performs `atomic_inc(&slow_read_ctr)` (slow path) -/
  | rSlowInc (i : Fin r) : Label n r w
  /-- reader `i` performs `up_read(&rw_sem)` (slow path) -/
  | rSlowUp (i : Fin r) : Label n r w
  /-- reader `i` calls `percpu_up_read`: `preempt_disable()` on CPU `cpu` -/
  | rRelStart (i : Fin r) (cpu : Fin n) : Label n r w
  /-- reader `i` tests `mutex_is_locked(&writer_mutex)` in `update_fast_ctr(-1)` -/
  | rRelCheck (i : Fin r) : Label n r w
  /-- reader `i` performs `__this_cpu_add(*fast_read_ctr, -1)` and `preempt_enable()` -/
  | rRelDec (i : Fin r) : Label n r w
  /-- reader `i` performs `atomic_dec_and_test(&slow_read_ctr)`, waking the
  waitqueue when the counter reaches zero -/
  | rRelSlowDec (i : Fin r) : Label n r w
  /-- writer `j` completes `mutex_lock(&writer_mutex)` -/
  | wLock (j : Fin w) : Label n r w
  /-- writer `j` completes `synchronize_sched_expedited()` in `percpu_down_write` -/
  | wSync (j : Fin w) : Label n r w
  /-- writer `j` performs `atomic_add(clear_fast_ctr(brw), &slow_read_ctr)` -/
  | wDrain (j : Fin w) : Label n r w
  /-- writer `j` completes `down_write(&rw_sem)` -/
  | wDownWrite (j : Fin w) : Label n r w
  /-- writer `j` passes `wait_event(write_waitq, !atomic_read(&slow_read_ctr))` -/
  | wWait (j : Fin w) : Label n r w
  /-- writer `j` performs `up_write(&rw_sem)` in `percpu_up_write` -/
  | wUpWrite (j : Fin w) : Label n r w
  /-- writer `j` completes `synchronize_sched_expedited()` in `percpu_up_write` -/
  | wRelSync (j : Fin w) : Label n r w
  /-- writer `j` performs `mutex_unlock(&writer_mutex)` -/
  | wUnlock (j : Fin w) : Label n r w
  deriving DecidableEq, Repr


/-- The loop body of `clear_fast_ctr`: iterate over the CPU list, adding each
per-CPU counter into the running sum and zeroing it. -/
def clear_fast_loop {n : Nat} :
    List (Fin n) → (Fin n → Int) → Int → ((Fin n → Int) × Int)
  | [], f, sum => (f, sum)
  | c :: cs, f, sum => clear_fast_loop cs (Function.update f c 0) (sum + f c)


/-- The function `clear_fast_ctr`: sum all per-CPU fast counters, zeroing each
(`for_each_possible_cpu` loop of the source), returning the sum. -/
def clear_fast_ctr {n : Nat} (f : Fin n → Int) : (Fin n → Int) × Int :=
  clear_fast_loop (List.finRange n) f 0


/-- The function `update_fast_ctr` as a single function: with preemption disabled, test
`writer_mutex`; if unlocked, add `val` to this CPU's counter and report
success.  In the transition system this is realized by the label pairs
`rAcqCheck`/`rAcqAdd` and `rRelCheck`/`rRelDec` so that the check and the
add are separately interleavable, as in the source. -/
def update_fast_ctr {n : Nat} (writer_mutex : Bool) (fast : Fin n → Int)
    (cpu : Fin n) (val : Int) : Bool × (Fin n → Int) :=
  if writer_mutex then (false, fast)
  else (true, Function.update fast cpu (fast cpu + val))


/-- No thread is currently inside a `preempt_disable`d window: the
condition under which `synchronize_sched_expedited()` can complete. -/
def noNpr {n r w : Nat} (s : Sem n r w) : Bool :=
  (List.finRange r).all (fun i => !(inNpr (s.rst i)))


/-- Execute one labelled action.  Returns `none` when the acting thread is
not at the corresponding program point or the action's enabling condition
(lock availability, barrier quiescence, wait condition) does not hold. -/
def stepExec {n r w : Nat} (s : Sem n r w) : Label n r w → Option (Sem n r w)
  | .rAcqStart i cpu =>
    match s.rst i with
    | .idle => some { s with rst := Function.update s.rst i (.acqNpr cpu) }
    | _ => none
  | .rAcqCheck i =>
    match s.rst i with
    | .acqNpr cpu =>
      some { s with rst := Function.update s.rst i (if s.writer_mutex then RSt.slowDown else RSt.acqAdd cpu) }
    | _ => none
  | .rAcqAdd i =>
    match s.rst i with
    | .acqAdd cpu =>
      some { s with
             fast_read_ctr :=
               Function.update s.fast_read_ctr cpu (s.fast_read_ctr cpu + 1)
             rst := Function.update s.rst i (.reading true) }
    | _ => none
  | .rSlowDown i =>
    match s.rst i with
    | .slowDown =>
      if s.rw_writer then none
      else
        some { s with
               rw_readers := s.rw_readers + 1
               rst := Function.update s.rst i .slowInc }
    | _ => none
  | .rSlowInc i =>
    match s.rst i with
    | .slowInc =>
      some { s with
             slow_read_ctr := s.slow_read_ctr + 1
             rst := Function.update s.rst i .slowUp }
    | _ => none
  | .rSlowUp i =>
    match s.rst i with
    | .slowUp =>
      some { s with
             rw_readers := s.rw_readers - 1
             rst := Function.update s.rst i (.reading false) }
    | _ => none
  | .rRelStart i cpu =>
    match s.rst i with
    | .reading viaFast =>
      some { s with rst := Function.update s.rst i (.relNpr cpu viaFast) }
    | _ => none
  | .rRelCheck i =>
    match s.rst i with
    | .relNpr cpu viaFast =>
      some { s with rst := Function.update s.rst i (if s.writer_mutex then RSt.relSlowDec viaFast else RSt.relDec cpu viaFast) }
    | _ => none
  | .rRelDec i =>
    match s.rst i with
    | .relDec cpu _ =>
      some { s with
             fast_read_ctr :=
               Function.update s.fast_read_ctr cpu (s.fast_read_ctr cpu - 1)
             rst := Function.update s.rst i .idle }
    | _ => none
  | .rRelSlowDec i =>
    match s.rst i with
    | .relSlowDec _ =>
      some { s with
             slow_read_ctr := s.slow_read_ctr - 1
             wakes := if s.slow_read_ctr - 1 = 0 then s.wakes + 1 else s.wakes
             rst := Function.update s.rst i .idle }
    | _ => none
  | .wLock j =>
    match s.wst j with
    | .widle =>
      if s.writer_mutex then none
      else
        some { s with
               writer_mutex := true
               wst := Function.update s.wst j .wLocked }
    | _ => none
  | .wSync j =>
    match s.wst j with
    | .wLocked =>
      if noNpr s then
        some { s with wst := Function.update s.wst j .wSynced }
      else none
    | _ => none
  | .wDrain j =>
    match s.wst j with
    | .wSynced =>
      some { s with
             fast_read_ctr := (clear_fast_ctr s.fast_read_ctr).1
             slow_read_ctr := s.slow_read_ctr + (clear_fast_ctr s.fast_read_ctr).2
             wst := Function.update s.wst j .wDrained }
    | _ => none
  | .wDownWrite j =>
    match s.wst j with
    | .wDrained =>
      if s.rw_writer = false ∧ s.rw_readers = 0 then
        some { s with
               rw_writer := true
               wst := Function.update s.wst j .wDowned }
      else none
    | _ => none
  | .wWait j =>
    match s.wst j with
    | .wDowned =>
      if s.slow_read_ctr = 0 then
        some { s with wst := Function.update s.wst j .wCrit }
      else none
    | _ => none
  | .wUpWrite j =>
    match s.wst j with
    | .wCrit =>
      some { s with
             rw_writer := false
             wst := Function.update s.wst j .wRel }
    | _ => none
  | .wRelSync j =>
    match s.wst j with
    | .wRel =>
      if noNpr s then
        some { s with wst := Function.update s.wst j .wRelSynced }
      else none
    | _ => none
  | .wUnlock j =>
    match s.wst j with
    | .wRelSynced =>
      some { s with
             writer_mutex := false
             wst := Function.update s.wst j .widle }
    | _ => none


/-- Run a list of labelled actions in order; `none` if any action is not
enabled when reached. -/
def run {n r w : Nat} (s : Sem n r w) : List (Label n r w) → Option (Sem n r w)
  | [] => some s
  | l :: ls =>
    match stepExec s l with
    | none => none
    | some s' => run s' ls


/-- The state produced by a successful `percpu_init_rwsem`: all per-CPU
counters zero, `slow_read_ctr` zero, `writer_mutex` unlocked, `rw_sem`
free, empty waitqueue; no thread is inside any operation. -/
def initSem (n r w : Nat) : Sem n r w where
  fast_read_ctr := fun _ => 0
  writer_mutex := false
  rw_readers := 0
  rw_writer := false
  slow_read_ctr := 0
  wakes := 0
  rst := fun _ => .idle
  wst := fun _ => .widle


/-- The allocator `alloc_percpu(int)`: either fails, or returns zero-initialized per-CPU
storage. -/
def alloc_percpu (n : Nat) (ok : Bool) : Option (Fin n → Int) :=
  if ok then some (fun _ => 0) else none


/-- The kernel's `ENOMEM` errno. -/
def ENOMEM : Int := 12


/-- The constructor `percpu_init_rwsem`: allocate the per-CPU counter storage; on failure
return `-ENOMEM` without constructing anything; on success initialize
`writer_mutex`, `rw_sem`, `slow_read_ctr = 0` and the waitqueue. -/
def percpu_init_rwsem (n r w : Nat) (alloc : Option (Fin n → Int)) :
    Except Int (Sem n r w) :=
  match alloc with
  | none => .error (-ENOMEM)
  | some ctr =>
    .ok { fast_read_ctr := ctr
          writer_mutex := false
          rw_readers := 0
          rw_writer := false
          slow_read_ctr := 0
          wakes := 0
          rst := fun _ => .idle
          wst := fun _ => .widle }


/-- A state is reachable when some interleaving of actions produces it from
the freshly initialized lock. -/
def Reachable {n r w : Nat} (s : Sem n r w) : Prop :=
  ∃ ls : List (Label n r w), run (initSem n r w) ls = some s


/-- Number of indices at which the boolean-valued function holds. -/
def countB {k : Nat} (f : Fin k → Bool) : Nat :=
  ∑ x : Fin k, (f x).toNat


/-- Number of readers currently accounted for in the counters (incremented,
not yet decremented). -/
def countedCount {n r w : Nat} (s : Sem n r w) : Nat :=
  countB (fun i => counted (s.rst i))


/-- Number of writers holding `writer_mutex`. -/
def mutexCount {n r w : Nat} (s : Sem n r w) : Nat :=
  countB (fun j => holdsMutex (s.wst j))


/-- Number of writers holding `rw_sem` exclusively. -/
def rwwCount {n r w : Nat} (s : Sem n r w) : Nat :=
  countB (fun j => holdsRw (s.wst j))


/-- Number of readers holding `rw_sem` in shared mode. -/
def slowSemCount {n r w : Nat} (s : Sem n r w) : Nat :=
  countB (fun i => slowSem (s.rst i))


/-- Sum of all per-CPU fast counters. -/
def fastSum {n r w : Nat} (s : Sem n r w) : Int :=
  ∑ c : Fin n, s.fast_read_ctr c


/-- The inductive invariant of the transition system.  `count_eq` is the
central accounting law: `slow_read_ctr` plus the sum of the fast counters
equals the number of readers that have incremented and not yet decremented.
The remaining fields tie the lock fields to the thread program counters. -/
structure Inv {n r w : Nat} (s : Sem n r w) : Prop where
  count_eq : s.slow_read_ctr + fastSum s = (countedCount s : Int)
  mutex_eq : mutexCount s = s.writer_mutex.toNat
  rww_eq : rwwCount s = s.rw_writer.toNat
  rwr_eq : s.rw_readers = slowSemCount s
  post_barrier : ∀ j, postBarrier (s.wst j) = true →
    ∀ i, pendingFast (s.rst i) = false
  fast_zero : ∀ j, fastFrozen (s.wst j) = true → ∀ c, s.fast_read_ctr c = 0
  rw_excl : s.rw_writer = true → s.rw_readers = 0
  crit_quiet : ∀ j, s.wst j = .wCrit → countedCount s = 0


/-- The action list driving one writer through all five steps of
`percpu_down_write` on a fresh lock. -/
def c1Labels : List (Label 1 1 1) :=
  [.wLock 0, .wSync 0, .wDrain 0, .wDownWrite 0, .wWait 0]


/-- The concrete reachable state used to witness C1: one writer has
completed all five steps of `percpu_down_write` on a fresh lock. -/
def c1State : Sem 1 1 1 :=
  (run (initSem 1 1 1) c1Labels).getD (initSem 1 1 1)


/-- The state after the first of the five `percpu_down_write` steps on a
fresh lock, used to witness C2. -/
def c2State : Sem 1 1 1 :=
  (stepExec (initSem 1 1 1) (.wLock 0)).getD (initSem 1 1 1)


/-- The action list leading a single reader into the `mutex_is_locked` test
on a fresh lock, used to witness C3. -/
def c3Labels : List (Label 1 1 1) := [.rAcqStart 0 0]


/-- The state at the fast-path check, used to witness C3. -/
def c3State : Sem 1 1 1 :=
  (run (initSem 1 1 1) c3Labels).getD (initSem 1 1 1)


/-- The state after a completed fast-path acquire, used to witness C3. -/
def c3Fast : Sem 1 1 1 :=
  (run c3State [.rAcqCheck 0, .rAcqAdd 0]).getD (initSem 1 1 1)


/-- The action list leading a writer to the drain point on a fresh lock,
used to witness C4. -/
def c4Labels : List (Label 1 1 1) := [.wLock 0, .wSync 0]


/-- The state at the drain point, used to witness C4. -/
def c4State : Sem 1 1 1 :=
  (run (initSem 1 1 1) c4Labels).getD (initSem 1 1 1)


/-- The state after the drain, used to witness C4. -/
def c4Drained : Sem 1 1 1 :=
  (stepExec c4State (.wDrain 0)).getD (initSem 1 1 1)


/-- The action list producing a reader at the slow release branch: the
reader acquires via the fast path, a writer then takes `writer_mutex`, so
the reader's release-time `mutex_is_locked` test sends it to the slow
branch.  Used to witness C5. -/
def c5Labels : List (Label 1 1 1) :=
  [.rAcqStart 0 0, .rAcqCheck 0, .rAcqAdd 0, .wLock 0, .rRelStart 0 0,
   .rRelCheck 0]


/-- The state at the slow release branch, used to witness C5. -/
def c5State : Sem 1 1 1 :=
  (run (initSem 1 1 1) c5Labels).getD (initSem 1 1 1)


/-- The state after the slow-branch decrement, used to witness C5. -/
def c5After : Sem 1 1 1 :=
  (stepExec c5State (.rRelSlowDec 0)).getD (initSem 1 1 1)


/-- C7 counterexample trace: reader 0 acquires via the FAST path, then a
writer locks `writer_mutex`, then reader 0 releases: its release-time
`mutex_is_locked` test fails and it takes the SLOW release branch, so the
release path does not match the acquire path. -/
def c7Labels : List (Label 1 1 1) :=
  [.rAcqStart 0 0, .rAcqCheck 0, .rAcqAdd 0, .wLock 0, .rRelStart 0 0,
   .rRelCheck 0]


/-- The state refuting C7, reached by `c7Labels`. -/
def c7State : Sem 1 1 1 :=
  (run (initSem 1 1 1) c7Labels).getD (initSem 1 1 1)


/-- The pre-release-check state used to witness the amended C7. -/
def c7Pre : Sem 1 1 1 :=
  (run (initSem 1 1 1) [.rAcqStart 0 0, .rAcqCheck 0, .rAcqAdd 0, .wLock 0,
    .rRelStart 0 0]).getD (initSem 1 1 1)


/-- The action list bringing a writer to its `wait_event` with all readers
idle, used to witness C9. -/
def c9Labels : List (Label 1 1 1) :=
  [.wLock 0, .wSync 0, .wDrain 0, .wDownWrite 0]


/-- The pre-wait state used to witness C9. -/
def c9State : Sem 1 1 1 :=
  (run (initSem 1 1 1) c9Labels).getD (initSem 1 1 1)


/-- The reader thread a label belongs to, if any. -/
def readerLabelOf {n r w : Nat} : Label n r w → Option (Fin r)
  | .rAcqStart i _ => some i
  | .rAcqCheck i => some i
  | .rAcqAdd i => some i
  | .rSlowDown i => some i
  | .rSlowInc i => some i
  | .rSlowUp i => some i
  | .rRelStart i _ => some i
  | .rRelCheck i => some i
  | .rRelDec i => some i
  | .rRelSlowDec i => some i
  | _ => none


/-- Invariant of writer-free executions: `writer_mutex` never gets locked,
`slow_read_ctr` stays zero, and every reader stays on the fast path. -/
def RInv {n r : Nat} (s : Sem n r 0) : Prop :=
  s.writer_mutex = false ∧ s.slow_read_ctr = 0 ∧
    ∀ i, fastPath (s.rst i) = true


/-- The trace refuting C6's per-unit non-negativity: with no writer thread
present (`w = 0`), one reader acquires on CPU 0 and releases on CPU 1, so
CPU 1's fast counter becomes `-1`. -/
def c6Labels : List (Label 2 1 0) :=
  [.rAcqStart 0 0, .rAcqCheck 0, .rAcqAdd 0, .rRelStart 0 1, .rRelCheck 0,
   .rRelDec 0]


/-- The state refuting C6, reached by `c6Labels`. -/
def c6State : Sem 2 1 0 :=
  (run (initSem 2 1 0) c6Labels).getD (initSem 2 1 0)


/-- The writer-free trace used to witness the amended C6: one reader holds
the lock via the fast path. -/
def c6AmLabels : List (Label 1 1 0) :=
  [.rAcqStart 0 0, .rAcqCheck 0, .rAcqAdd 0]


/-- The state reached by `c6AmLabels`, used to witness the amended C6. -/
def c6AmState : Sem 1 1 0 :=
  (run (initSem 1 1 0) c6AmLabels).getD (initSem 1 1 0)


/-- Two's-complement reading of a 32-bit unsigned cell
(`4294967296 = 2^32`, `2147483648 = 2^31`). -/
def toSigned (m : Nat) : Int :=
  if m < 2147483648 then (m : Int) else (m : Int) - 4294967296


/-- The add `__this_cpu_add` on an `int` cell with an `unsigned int` delta:
wraparound addition modulo `2^32`. -/
def u32_add (c v : Nat) : Nat := (c + v) % 4294967296


/-- The `unsigned int` image of the `-1` that `percpu_up_read` passes to
`update_fast_ctr` (equals `2^32 - 1`). -/
def u32_neg_one : Nat := 4294967295


/-- One fast-path counter event: an increment (`percpu_down_read`) or a
decrement (`percpu_up_read`) on a given CPU's slot. -/
inductive CtrOp (n : Nat) where
  | inc (cpu : Fin n) : CtrOp n
  | dec (cpu : Fin n) : CtrOp n
  deriving DecidableEq, Repr


/-- Run a history of fast-path events at the machine level (32-bit cells,
decrement passed as the unsigned `2^32 - 1`). -/
def runOpsM {n : Nat} : List (CtrOp n) → (Fin n → Nat) → (Fin n → Nat)
  | [], f => f
  | .inc c :: t, f => runOpsM t (Function.update f c (u32_add (f c) 1))
  | .dec c :: t, f => runOpsM t (Function.update f c (u32_add (f c) u32_neg_one))


/-- Run the same history with exact signed-integer arithmetic. -/
def runOpsZ {n : Nat} : List (CtrOp n) → (Fin n → Int) → (Fin n → Int)
  | [], f => f
  | .inc c :: t, f => runOpsZ t (Function.update f c (f c + 1))
  | .dec c :: t, f => runOpsZ t (Function.update f c (f c - 1))


/-- The loop of `clear_fast_ctr` at the machine level: the `unsigned int
sum` accumulator wraps at each addition, and each visited cell is zeroed. -/
def clear_loop_u32 {n : Nat} : List (Fin n) → (Fin n → Nat) → Nat → Nat
  | [], _, sum => sum
  | c :: cs, f, sum => clear_loop_u32 cs (Function.update f c 0) (u32_add sum (f c))


/-- The drain `clear_fast_ctr` at the machine level: sum all 32-bit cells into an
`unsigned int`. -/
def clear_fast_ctr_u32 {n : Nat} (f : Fin n → Nat) : Nat :=
  clear_loop_u32 (List.finRange n) f 0


/-- A 32-bit cell `m` represents the exact integer `z` when it equals `z`
modulo `2^32`. -/
def reprU32 (z : Int) (m : Nat) : Prop := (m : Int) = z % 4294967296


/-- The concrete history used to witness C10: two increments and one
decrement on unit 0 plus one increment on unit 1, then a decrement on
unit 0 — leaving unit 0's cell at the wrapped value of `-1` while the
exact total is zero. -/
def c10Ops : List (CtrOp 2) :=
  [.inc 0, .inc 1, .dec 0, .dec 0]


/-! ## Lemmas and claim theorems -/

/-- The executable quiescence check agrees with its universal reading. -/
lemma noNpr_iff {n r w : Nat} (s : Sem n r w) :
    noNpr s = true ↔ ∀ i, inNpr (s.rst i) = false := by
  unfold noNpr
  rw [List.all_eq_true]
  constructor
  · intro h i
    have := h i (List.mem_finRange i)
    simpa using this
  · intro h x _
    simp [h x]


/-- Composing a pointwise test with a single-point update is the update of
the pointwise test. -/
lemma comp_update_eq {k : Nat} {α β : Type} [DecidableEq (Fin k)]
    (g : Fin k → α) (P : α → β) (j : Fin k) (v : α) :
    (fun x => P (Function.update g j v x)) =
      Function.update (fun x => P (g x)) j (P v) := by
  funext x
  rcases eq_or_ne x j with rfl | h
  · simp
  · simp [Function.update_noteq h]


/-- How `countB` changes under a single-point update. -/
lemma countB_update {k : Nat} (f : Fin k → Bool) (j : Fin k) (b : Bool) :
    countB (Function.update f j b) + (f j).toNat = countB f + b.toNat := by
  unfold countB
  rw [show (fun x => (Function.update f j b x).toNat) =
        Function.update (fun x => (f x).toNat) j b.toNat from
      comp_update_eq f Bool.toNat j b]
  rw [Finset.sum_update_of_mem (Finset.mem_univ j)]
  rw [← Finset.add_sum_erase _ (fun x => (f x).toNat) (Finset.mem_univ j)]
  rw [Finset.erase_eq]
  omega


/-- Counting after updating the underlying state component. -/
lemma countB_comp_update {k : Nat} {α : Type} (g : Fin k → α) (P : α → Bool)
    (j : Fin k) (v : α) :
    countB (fun x => P (Function.update g j v x)) + (P (g j)).toNat =
      countB (fun x => P (g x)) + (P v).toNat := by
  rw [comp_update_eq g P j v]
  exact countB_update _ _ _


/-- A satisfied index gives a positive count. -/
lemma countB_pos {k : Nat} (f : Fin k → Bool) (j : Fin k) (h : f j = true) :
    1 ≤ countB f := by
  unfold countB
  calc 1 = ∑ x ∈ ({j} : Finset (Fin k)), (f x).toNat := by
        rw [Finset.sum_singleton, h]
        decide
  _ ≤ ∑ x : Fin k, (f x).toNat :=
      Finset.sum_le_sum_of_subset (Finset.subset_univ _)


/-- Two distinct satisfied indices give a count of at least two. -/
lemma countB_two {k : Nat} (f : Fin k → Bool) (j1 j2 : Fin k) (hne : j1 ≠ j2)
    (h1 : f j1 = true) (h2 : f j2 = true) : 2 ≤ countB f := by
  unfold countB
  calc 2 = ∑ x ∈ ({j1, j2} : Finset (Fin k)), (f x).toNat := by
        rw [Finset.sum_pair hne, h1, h2]
        decide
  _ ≤ ∑ x : Fin k, (f x).toNat :=
      Finset.sum_le_sum_of_subset (Finset.subset_univ _)


/-- A zero count means no index is satisfied. -/
lemma countB_eq_zero {k : Nat} {f : Fin k → Bool} (h : countB f = 0)
    (j : Fin k) : f j = false := by
  by_contra hb
  have ht : f j = true := by
    cases hfj : f j
    · exact absurd hfj hb
    · rfl
  have := countB_pos f j ht
  omega


/-- The count of a constantly-false test is zero. -/
lemma countB_false {k : Nat} : countB (fun _ : Fin k => false) = 0 := by
  unfold countB
  simp


/-- Summing after a single-point additive update. -/
lemma sum_update_add {n : Nat} (f : Fin n → Int) (c : Fin n) (d : Int) :
    ∑ x : Fin n, Function.update f c (f c + d) x = (∑ x : Fin n, f x) + d := by
  rw [Finset.sum_update_of_mem (Finset.mem_univ c)]
  rw [← Finset.add_sum_erase _ f (Finset.mem_univ c)]
  rw [Finset.erase_eq]
  ring


/-- The loop of `clear_fast_ctr` accumulates exactly the values of the
visited CPUs when no CPU is visited twice. -/
lemma clear_fast_loop_snd {n : Nat} (l : List (Fin n)) (hnd : l.Nodup)
    (f : Fin n → Int) (a : Int) :
    (clear_fast_loop l f a).2 = a + (l.map f).sum := by
  induction l generalizing f a with
  | nil => simp [clear_fast_loop]
  | cons c cs ih =>
    have hc : c ∉ cs := (List.nodup_cons.mp hnd).1
    have hcs : cs.Nodup := (List.nodup_cons.mp hnd).2
    simp only [clear_fast_loop, List.map_cons, List.sum_cons]
    rw [ih hcs]
    have hmap : cs.map (Function.update f c 0) = cs.map f := by
      apply List.map_congr_left
      intro x hx
      have hxc : x ≠ c := fun hxeq => hc (hxeq ▸ hx)
      exact Function.update_noteq hxc 0 f
    rw [hmap]
    ring


/-- After the loop, every visited CPU slot is zero and the rest are
untouched. -/
lemma clear_fast_loop_fst {n : Nat} (l : List (Fin n)) (f : Fin n → Int)
    (a : Int) (c : Fin n) :
    (clear_fast_loop l f a).1 c = if c ∈ l then 0 else f c := by
  induction l generalizing f a with
  | nil => simp [clear_fast_loop]
  | cons d ds ih =>
    simp only [clear_fast_loop]
    rw [ih]
    rcases eq_or_ne c d with rfl | hcd
    · simp
    · simp [Function.update_noteq hcd, hcd]


/-- The drain `clear_fast_ctr` returns the exact sum of all per-CPU counters. -/
lemma clear_fast_ctr_snd {n : Nat} (f : Fin n → Int) :
    (clear_fast_ctr f).2 = ∑ c : Fin n, f c := by
  unfold clear_fast_ctr
  rw [clear_fast_loop_snd _ (List.nodup_finRange n)]
  rw [Fin.sum_univ_def]
  ring


/-- The drain `clear_fast_ctr` zeroes every per-CPU counter. -/
lemma clear_fast_ctr_fst {n : Nat} (f : Fin n → Int) (c : Fin n) :
    (clear_fast_ctr f).1 c = 0 := by
  unfold clear_fast_ctr
  rw [clear_fast_loop_fst]
  simp [List.mem_finRange]


/-- A writer in any stage of `percpu_down_write`/`percpu_up_write` implies
`writer_mutex` is locked. -/
lemma mutex_true_of_stage {n r w : Nat} {s : Sem n r w} (inv : Inv s)
    {j : Fin w} (h : holdsMutex (s.wst j) = true) : s.writer_mutex = true := by
  have h1 := countB_pos (fun x => holdsMutex (s.wst x)) j h
  have h2 := inv.mutex_eq
  unfold mutexCount at h2
  cases hm : s.writer_mutex
  · rw [hm] at h2
    simp only [Bool.toNat_false] at h2
    omega
  · rfl


/-- At most one writer is in the mutex-holding stages. -/
lemma unique_mutex_holder {n r w : Nat} {s : Sem n r w} (inv : Inv s)
    {j j' : Fin w} (h : holdsMutex (s.wst j) = true)
    (h' : holdsMutex (s.wst j') = true) : j = j' := by
  by_contra hne
  have h2 := countB_two (fun x => holdsMutex (s.wst x)) j j' hne h h'
  have h3 := inv.mutex_eq
  unfold mutexCount at h3
  cases hm : s.writer_mutex <;> rw [hm] at h3 <;> simp at h3 <;> omega


/-- A writer holding `rw_sem` exclusively implies `rw_writer` is set. -/
lemma rww_true_of_stage {n r w : Nat} {s : Sem n r w} (inv : Inv s)
    {j : Fin w} (h : holdsRw (s.wst j) = true) : s.rw_writer = true := by
  have h1 := countB_pos (fun x => holdsRw (s.wst x)) j h
  have h2 := inv.rww_eq
  unfold rwwCount at h2
  cases hm : s.rw_writer
  · rw [hm] at h2
    simp only [Bool.toNat_false] at h2
    omega
  · rfl


/-- While a writer holds `rw_sem` exclusively no reader holds it shared. -/
lemma no_slowSem_of_rww {n r w : Nat} {s : Sem n r w} (inv : Inv s)
    (h : s.rw_writer = true) (i : Fin r) : slowSem (s.rst i) = false := by
  have h0 := inv.rw_excl h
  have h1 := inv.rwr_eq
  unfold slowSemCount at h1
  have h2 : countB (fun x => slowSem (s.rst x)) = 0 := by omega
  exact countB_eq_zero h2 i


/-- All `postBarrier` stages are mutex-holding stages. -/
lemma holdsMutex_of_postBarrier {t : WSt} (h : postBarrier t = true) :
    holdsMutex t = true := by
  cases t <;> first | rfl | exact absurd h (by decide)


/-- All `fastFrozen` stages are `postBarrier` stages. -/
lemma postBarrier_of_fastFrozen {t : WSt} (h : fastFrozen t = true) :
    postBarrier t = true := by
  cases t <;> first | rfl | exact absurd h (by decide)


/-- While `writer_mutex` is unlocked, no writer is past its acquire
barrier. -/
lemma no_postBarrier_of_unlocked {n r w : Nat} {s : Sem n r w} (inv : Inv s)
    (hm : s.writer_mutex = false) (j : Fin w) : postBarrier (s.wst j) = false := by
  cases hp : postBarrier (s.wst j)
  · rfl
  · have := mutex_true_of_stage inv (holdsMutex_of_postBarrier hp)
    rw [hm] at this
    exact absurd this (by decide)


/-- A zero `countedCount` forces every reader to be uncounted. -/
lemma counted_false_of_zero {n r w : Nat} {s : Sem n r w}
    (h : countedCount s = 0) (i : Fin r) : counted (s.rst i) = false :=
  countB_eq_zero h i


/-- The freshly initialized lock satisfies the invariant. -/
lemma inv_init (n r w : Nat) : Inv (initSem n r w) := by
  refine ⟨?_, ?_, ?_, ?_, ?_, ?_, ?_, ?_⟩
  · simp [initSem, fastSum, countedCount, counted, countB]
  · simp [initSem, mutexCount, holdsMutex, countB]
  · simp [initSem, rwwCount, holdsRw, countB]
  · simp [initSem, slowSemCount, slowSem, countB]
  · intro j hj
    simp [initSem, postBarrier] at hj
  · intro j hj
    simp [initSem, fastFrozen] at hj
  · intro h
    simp [initSem] at h
  · intro j hj
    simp [initSem] at hj


/-- A pending fast-path update happens inside a preempt-disabled window. -/
lemma inNpr_of_pendingFast {n : Nat} {t : RSt n} (h : pendingFast t = true) :
    inNpr t = true := by
  cases t <;> simp_all [pendingFast, inNpr]


/-- Summing after a single-point subtractive update. -/
lemma sum_update_sub {n : Nat} (f : Fin n → Int) (c : Fin n) (d : Int) :
    ∑ x : Fin n, Function.update f c (f c - d) x = (∑ x : Fin n, f x) - d := by
  rw [Finset.sum_update_of_mem (Finset.mem_univ c)]
  rw [← Finset.add_sum_erase _ f (Finset.mem_univ c)]
  rw [Finset.erase_eq]
  ring


/-- A state whose fast counters are all zero has zero fast sum. -/
lemma fastSum_eq_zero {n r w : Nat} {s : Sem n r w}
    (h : ∀ c, s.fast_read_ctr c = 0) : fastSum s = 0 := by
  unfold fastSum
  calc ∑ c : Fin n, s.fast_read_ctr c = ∑ _c : Fin n, (0 : Int) :=
        Finset.sum_congr rfl fun c _ => h c
  _ = 0 := Finset.sum_const_zero


/-- Lemma `countB_comp_update` with the two endpoint values pre-evaluated. -/
lemma countB_comp_update_eval {k : Nat} {α : Type} (g : Fin k → α)
    (P : α → Bool) (j : Fin k) (v : α) (a b : Nat)
    (h0 : (P (g j)).toNat = a) (h1 : (P v).toNat = b) :
    countB (fun x => P (Function.update g j v x)) + a =
      countB (fun x => P (g x)) + b := by
  rw [← h0, ← h1]
  exact countB_comp_update g P j v


/-- Every step of the transition system preserves the invariant. -/
lemma inv_step {n r w : Nat} {s s' : Sem n r w} {l : Label n r w}
    (inv : Inv s) (h : stepExec s l = some s') : Inv s' := by
  cases l with
  | rAcqStart i cpu =>
    rcases hri : s.rst i with _ | c0 | c0 | _ | _ | _ | vf | ⟨c0, vf⟩ | ⟨c0, vf⟩ | vf
    all_goals simp only [stepExec, hri, Option.some.injEq, reduceCtorEq] at h
    subst h
    refine ⟨?_, ?_, ?_, ?_, ?_, ?_, ?_, ?_⟩
    · simp only [countedCount, fastSum]
      have hcc := countB_comp_update_eval s.rst counted i (RSt.acqNpr cpu) 0 0
        (by rw [hri]; rfl) rfl
      have hce := inv.count_eq
      simp only [countedCount, fastSum] at hce
      omega
    · exact inv.mutex_eq
    · exact inv.rww_eq
    · simp only [slowSemCount]
      have hcc := countB_comp_update_eval s.rst slowSem i (RSt.acqNpr cpu) 0 0
        (by rw [hri]; rfl) rfl
      have hce := inv.rwr_eq
      simp only [slowSemCount] at hce
      omega
    · intro j hj i'
      simp only [] at hj ⊢
      rcases eq_or_ne i' i with rfl | hne
      · rw [Function.update_same]
        rfl
      · rw [Function.update_noteq hne]
        exact inv.post_barrier j hj i'
    · exact inv.fast_zero
    · exact inv.rw_excl
    · intro j hj
      simp only [] at hj
      simp only [countedCount]
      have hcc := countB_comp_update_eval s.rst counted i (RSt.acqNpr cpu) 0 0
        (by rw [hri]; rfl) rfl
      have hq := inv.crit_quiet j hj
      simp only [countedCount] at hq
      omega
  | rAcqCheck i =>
    rcases hri : s.rst i with _ | c0 | c0 | _ | _ | _ | vf | ⟨c0, vf⟩ | ⟨c0, vf⟩ | vf
    all_goals simp only [stepExec, hri, Option.some.injEq, reduceCtorEq] at h
    split at h
    case isTrue hm =>
      subst h
      refine ⟨?_, ?_, ?_, ?_, ?_, ?_, ?_, ?_⟩
      · simp only [countedCount, fastSum]
        have hcc := countB_comp_update_eval s.rst counted i RSt.slowDown 0 0
          (by rw [hri]; rfl) rfl
        have hce := inv.count_eq
        simp only [countedCount, fastSum] at hce
        omega
      · exact inv.mutex_eq
      · exact inv.rww_eq
      · simp only [slowSemCount]
        have hcc := countB_comp_update_eval s.rst slowSem i RSt.slowDown 0 0
          (by rw [hri]; rfl) rfl
        have hce := inv.rwr_eq
        simp only [slowSemCount] at hce
        omega
      · intro j hj i'
        simp only [] at hj ⊢
        rcases eq_or_ne i' i with rfl | hne
        · rw [Function.update_same]
          rfl
        · rw [Function.update_noteq hne]
          exact inv.post_barrier j hj i'
      · exact inv.fast_zero
      · exact inv.rw_excl
      · intro j hj
        simp only [] at hj
        simp only [countedCount]
        have hcc := countB_comp_update_eval s.rst counted i RSt.slowDown 0 0
          (by rw [hri]; rfl) rfl
        have hq := inv.crit_quiet j hj
        simp only [countedCount] at hq
        omega
    case isFalse hm =>
      rw [Bool.not_eq_true] at hm
      subst h
      refine ⟨?_, ?_, ?_, ?_, ?_, ?_, ?_, ?_⟩
      · simp only [countedCount, fastSum]
        have hcc := countB_comp_update_eval s.rst counted i (RSt.acqAdd c0) 0 0
          (by rw [hri]; rfl) rfl
        have hce := inv.count_eq
        simp only [countedCount, fastSum] at hce
        omega
      · exact inv.mutex_eq
      · exact inv.rww_eq
      · simp only [slowSemCount]
        have hcc := countB_comp_update_eval s.rst slowSem i (RSt.acqAdd c0) 0 0
          (by rw [hri]; rfl) rfl
        have hce := inv.rwr_eq
        simp only [slowSemCount] at hce
        omega
      · intro j hj i'
        simp only [] at hj
        have hnp := no_postBarrier_of_unlocked inv hm j
        rw [hj] at hnp
        exact absurd hnp (by decide)
      · intro j hj
        simp only [] at hj
        have hnp := no_postBarrier_of_unlocked inv hm j
        rw [postBarrier_of_fastFrozen hj] at hnp
        exact absurd hnp (by decide)
      · exact inv.rw_excl
      · intro j hj
        simp only [] at hj
        have hnp := no_postBarrier_of_unlocked inv hm j
        rw [hj] at hnp
        exact absurd hnp (by decide)
  | rAcqAdd i =>
    rcases hri : s.rst i with _ | c0 | c0 | _ | _ | _ | vf | ⟨c0, vf⟩ | ⟨c0, vf⟩ | vf
    all_goals simp only [stepExec, hri, Option.some.injEq, reduceCtorEq] at h
    subst h
    refine ⟨?_, ?_, ?_, ?_, ?_, ?_, ?_, ?_⟩
    · simp only [countedCount, fastSum]
      rw [sum_update_add]
      have hcc := countB_comp_update_eval s.rst counted i (RSt.reading true) 0 1
        (by rw [hri]; rfl) rfl
      have hce := inv.count_eq
      simp only [countedCount, fastSum] at hce
      omega
    · exact inv.mutex_eq
    · exact inv.rww_eq
    · simp only [slowSemCount]
      have hcc := countB_comp_update_eval s.rst slowSem i (RSt.reading true) 0 0
        (by rw [hri]; rfl) rfl
      have hce := inv.rwr_eq
      simp only [slowSemCount] at hce
      omega
    · intro j hj i'
      simp only [] at hj
      have hpf := inv.post_barrier j hj i
      rw [hri] at hpf
      simp [pendingFast] at hpf
    · intro j hj c
      simp only [] at hj
      have hpf := inv.post_barrier j (postBarrier_of_fastFrozen hj) i
      rw [hri] at hpf
      simp [pendingFast] at hpf
    · exact inv.rw_excl
    · intro j hj
      simp only [] at hj
      have hpb : postBarrier (s.wst j) = true := by rw [hj]; rfl
      have hpf := inv.post_barrier j hpb i
      rw [hri] at hpf
      simp [pendingFast] at hpf
  | rSlowDown i =>
    rcases hri : s.rst i with _ | c0 | c0 | _ | _ | _ | vf | ⟨c0, vf⟩ | ⟨c0, vf⟩ | vf
    all_goals simp only [stepExec, hri, Option.some.injEq, reduceCtorEq] at h
    split at h
    case isTrue hrw => exact Option.noConfusion h
    case isFalse hrw =>
      rw [Bool.not_eq_true] at hrw
      simp only [Option.some.injEq] at h
      subst h
      refine ⟨?_, ?_, ?_, ?_, ?_, ?_, ?_, ?_⟩
      · simp only [countedCount, fastSum]
        have hcc := countB_comp_update_eval s.rst counted i RSt.slowInc 0 0
          (by rw [hri]; rfl) rfl
        have hce := inv.count_eq
        simp only [countedCount, fastSum] at hce
        omega
      · exact inv.mutex_eq
      · exact inv.rww_eq
      · simp only [slowSemCount]
        have hcc := countB_comp_update_eval s.rst slowSem i RSt.slowInc 0 1
          (by rw [hri]; rfl) rfl
        have hce := inv.rwr_eq
        simp only [slowSemCount] at hce
        omega
      · intro j hj i'
        simp only [] at hj ⊢
        rcases eq_or_ne i' i with rfl | hne
        · rw [Function.update_same]
          rfl
        · rw [Function.update_noteq hne]
          exact inv.post_barrier j hj i'
      · exact inv.fast_zero
      · intro hcontra
        simp only [] at hcontra
        rw [hcontra] at hrw
        exact absurd hrw (by decide)
      · intro j hj
        simp only [] at hj
        have h1 := rww_true_of_stage inv (show holdsRw (s.wst j) = true by rw [hj]; rfl)
        rw [h1] at hrw
        exact absurd hrw (by decide)
  | rSlowInc i =>
    rcases hri : s.rst i with _ | c0 | c0 | _ | _ | _ | vf | ⟨c0, vf⟩ | ⟨c0, vf⟩ | vf
    all_goals simp only [stepExec, hri, Option.some.injEq, reduceCtorEq] at h
    subst h
    refine ⟨?_, ?_, ?_, ?_, ?_, ?_, ?_, ?_⟩
    · simp only [countedCount, fastSum]
      have hcc := countB_comp_update_eval s.rst counted i RSt.slowUp 0 1
        (by rw [hri]; rfl) rfl
      have hce := inv.count_eq
      simp only [countedCount, fastSum] at hce
      omega
    · exact inv.mutex_eq
    · exact inv.rww_eq
    · simp only [slowSemCount]
      have hcc := countB_comp_update_eval s.rst slowSem i RSt.slowUp 1 1
        (by rw [hri]; rfl) rfl
      have hce := inv.rwr_eq
      simp only [slowSemCount] at hce
      omega
    · intro j hj i'
      simp only [] at hj ⊢
      rcases eq_or_ne i' i with rfl | hne
      · rw [Function.update_same]
        rfl
      · rw [Function.update_noteq hne]
        exact inv.post_barrier j hj i'
    · exact inv.fast_zero
    · exact inv.rw_excl
    · intro j hj
      simp only [] at hj
      have h1 := rww_true_of_stage inv (show holdsRw (s.wst j) = true by rw [hj]; rfl)
      have h2 := no_slowSem_of_rww inv h1 i
      rw [hri] at h2
      simp [slowSem] at h2
  | rSlowUp i =>
    rcases hri : s.rst i with _ | c0 | c0 | _ | _ | _ | vf | ⟨c0, vf⟩ | ⟨c0, vf⟩ | vf
    all_goals simp only [stepExec, hri, Option.some.injEq, reduceCtorEq] at h
    subst h
    refine ⟨?_, ?_, ?_, ?_, ?_, ?_, ?_, ?_⟩
    · simp only [countedCount, fastSum]
      have hcc := countB_comp_update_eval s.rst counted i (RSt.reading false) 1 1
        (by rw [hri]; rfl) rfl
      have hce := inv.count_eq
      simp only [countedCount, fastSum] at hce
      omega
    · exact inv.mutex_eq
    · exact inv.rww_eq
    · simp only [slowSemCount]
      have hcc := countB_comp_update_eval s.rst slowSem i (RSt.reading false) 1 0
        (by rw [hri]; rfl) rfl
      have hpos := countB_pos (fun x => slowSem (s.rst x)) i
        (show slowSem (s.rst i) = true by rw [hri]; rfl)
      have hce := inv.rwr_eq
      simp only [slowSemCount] at hce
      omega
    · intro j hj i'
      simp only [] at hj ⊢
      rcases eq_or_ne i' i with rfl | hne
      · rw [Function.update_same]
        rfl
      · rw [Function.update_noteq hne]
        exact inv.post_barrier j hj i'
    · exact inv.fast_zero
    · intro hrw
      have h0 := inv.rw_excl hrw
      simp only []
      omega
    · intro j hj
      simp only [] at hj
      have h1 := rww_true_of_stage inv (show holdsRw (s.wst j) = true by rw [hj]; rfl)
      have h2 := no_slowSem_of_rww inv h1 i
      rw [hri] at h2
      simp [slowSem] at h2
  | rRelStart i cpu =>
    rcases hri : s.rst i with _ | c0 | c0 | _ | _ | _ | vf | ⟨c0, vf⟩ | ⟨c0, vf⟩ | vf
    all_goals simp only [stepExec, hri, Option.some.injEq, reduceCtorEq] at h
    subst h
    refine ⟨?_, ?_, ?_, ?_, ?_, ?_, ?_, ?_⟩
    · simp only [countedCount, fastSum]
      have hcc := countB_comp_update_eval s.rst counted i (RSt.relNpr cpu vf) 1 1
        (by rw [hri]; rfl) rfl
      have hce := inv.count_eq
      simp only [countedCount, fastSum] at hce
      omega
    · exact inv.mutex_eq
    · exact inv.rww_eq
    · simp only [slowSemCount]
      have hcc := countB_comp_update_eval s.rst slowSem i (RSt.relNpr cpu vf) 0 0
        (by rw [hri]; rfl) rfl
      have hce := inv.rwr_eq
      simp only [slowSemCount] at hce
      omega
    · intro j hj i'
      simp only [] at hj ⊢
      rcases eq_or_ne i' i with rfl | hne
      · rw [Function.update_same]
        rfl
      · rw [Function.update_noteq hne]
        exact inv.post_barrier j hj i'
    · exact inv.fast_zero
    · exact inv.rw_excl
    · intro j hj
      simp only [] at hj
      have hz := inv.crit_quiet j hj
      have hcf := counted_false_of_zero hz i
      rw [hri] at hcf
      simp [counted] at hcf
  | rRelCheck i =>
    rcases hri : s.rst i with _ | c0 | c0 | _ | _ | _ | vf | ⟨c0, vf⟩ | ⟨c0, vf⟩ | vf
    all_goals simp only [stepExec, hri, Option.some.injEq, reduceCtorEq] at h
    split at h
    case isTrue hm =>
      subst h
      refine ⟨?_, ?_, ?_, ?_, ?_, ?_, ?_, ?_⟩
      · simp only [countedCount, fastSum]
        have hcc := countB_comp_update_eval s.rst counted i (RSt.relSlowDec vf) 1 1
          (by rw [hri]; rfl) rfl
        have hce := inv.count_eq
        simp only [countedCount, fastSum] at hce
        omega
      · exact inv.mutex_eq
      · exact inv.rww_eq
      · simp only [slowSemCount]
        have hcc := countB_comp_update_eval s.rst slowSem i (RSt.relSlowDec vf) 0 0
          (by rw [hri]; rfl) rfl
        have hce := inv.rwr_eq
        simp only [slowSemCount] at hce
        omega
      · intro j hj i'
        simp only [] at hj ⊢
        rcases eq_or_ne i' i with rfl | hne
        · rw [Function.update_same]
          rfl
        · rw [Function.update_noteq hne]
          exact inv.post_barrier j hj i'
      · exact inv.fast_zero
      · exact inv.rw_excl
      · intro j hj
        simp only [] at hj
        have hz := inv.crit_quiet j hj
        have hcf := counted_false_of_zero hz i
        rw [hri] at hcf
        simp [counted] at hcf
    case isFalse hm =>
      rw [Bool.not_eq_true] at hm
      subst h
      refine ⟨?_, ?_, ?_, ?_, ?_, ?_, ?_, ?_⟩
      · simp only [countedCount, fastSum]
        have hcc := countB_comp_update_eval s.rst counted i (RSt.relDec c0 vf) 1 1
          (by rw [hri]; rfl) rfl
        have hce := inv.count_eq
        simp only [countedCount, fastSum] at hce
        omega
      · exact inv.mutex_eq
      · exact inv.rww_eq
      · simp only [slowSemCount]
        have hcc := countB_comp_update_eval s.rst slowSem i (RSt.relDec c0 vf) 0 0
          (by rw [hri]; rfl) rfl
        have hce := inv.rwr_eq
        simp only [slowSemCount] at hce
        omega
      · intro j hj i'
        simp only [] at hj
        have hnp := no_postBarrier_of_unlocked inv hm j
        rw [hj] at hnp
        exact absurd hnp (by decide)
      · intro j hj
        simp only [] at hj
        have hnp := no_postBarrier_of_unlocked inv hm j
        rw [postBarrier_of_fastFrozen hj] at hnp
        exact absurd hnp (by decide)
      · exact inv.rw_excl
      · intro j hj
        simp only [] at hj
        have hnp := no_postBarrier_of_unlocked inv hm j
        rw [hj] at hnp
        exact absurd hnp (by decide)
  | rRelDec i =>
    rcases hri : s.rst i with _ | c0 | c0 | _ | _ | _ | vf | ⟨c0, vf⟩ | ⟨c0, vf⟩ | vf
    all_goals simp only [stepExec, hri, Option.some.injEq, reduceCtorEq] at h
    subst h
    refine ⟨?_, ?_, ?_, ?_, ?_, ?_, ?_, ?_⟩
    · simp only [countedCount, fastSum]
      rw [sum_update_sub]
      have hcc := countB_comp_update_eval s.rst counted i RSt.idle 1 0
        (by rw [hri]; rfl) rfl
      have hce := inv.count_eq
      simp only [countedCount, fastSum] at hce
      omega
    · exact inv.mutex_eq
    · exact inv.rww_eq
    · simp only [slowSemCount]
      have hcc := countB_comp_update_eval s.rst slowSem i RSt.idle 0 0
        (by rw [hri]; rfl) rfl
      have hce := inv.rwr_eq
      simp only [slowSemCount] at hce
      omega
    · intro j hj i'
      simp only [] at hj
      have hpf := inv.post_barrier j hj i
      rw [hri] at hpf
      simp [pendingFast] at hpf
    · intro j hj c
      simp only [] at hj
      have hpf := inv.post_barrier j (postBarrier_of_fastFrozen hj) i
      rw [hri] at hpf
      simp [pendingFast] at hpf
    · exact inv.rw_excl
    · intro j hj
      simp only [] at hj
      have hz := inv.crit_quiet j hj
      have hcf := counted_false_of_zero hz i
      rw [hri] at hcf
      simp [counted] at hcf
  | rRelSlowDec i =>
    rcases hri : s.rst i with _ | c0 | c0 | _ | _ | _ | vf | ⟨c0, vf⟩ | ⟨c0, vf⟩ | vf
    all_goals simp only [stepExec, hri, Option.some.injEq, reduceCtorEq] at h
    subst h
    refine ⟨?_, ?_, ?_, ?_, ?_, ?_, ?_, ?_⟩
    · simp only [countedCount, fastSum]
      have hcc := countB_comp_update_eval s.rst counted i RSt.idle 1 0
        (by rw [hri]; rfl) rfl
      have hce := inv.count_eq
      simp only [countedCount, fastSum] at hce
      omega
    · exact inv.mutex_eq
    · exact inv.rww_eq
    · simp only [slowSemCount]
      have hcc := countB_comp_update_eval s.rst slowSem i RSt.idle 0 0
        (by rw [hri]; rfl) rfl
      have hce := inv.rwr_eq
      simp only [slowSemCount] at hce
      omega
    · intro j hj i'
      simp only [] at hj ⊢
      rcases eq_or_ne i' i with rfl | hne
      · rw [Function.update_same]
        rfl
      · rw [Function.update_noteq hne]
        exact inv.post_barrier j hj i'
    · exact inv.fast_zero
    · exact inv.rw_excl
    · intro j hj
      simp only [] at hj
      have hz := inv.crit_quiet j hj
      have hcf := counted_false_of_zero hz i
      rw [hri] at hcf
      simp [counted] at hcf
  | wLock j =>
    cases hwj : s.wst j
    all_goals simp only [stepExec, hwj, Option.some.injEq, reduceCtorEq] at h
    split at h
    case isTrue hm => exact Option.noConfusion h
    case isFalse hm =>
      rw [Bool.not_eq_true] at hm
      simp only [Option.some.injEq] at h
      subst h
      refine ⟨?_, ?_, ?_, ?_, ?_, ?_, ?_, ?_⟩
      · exact inv.count_eq
      · simp only [mutexCount, Bool.toNat_true]
        have hcc := countB_comp_update_eval s.wst holdsMutex j WSt.wLocked 0 1
          (by rw [hwj]; rfl) rfl
        have hce := inv.mutex_eq
        rw [hm] at hce
        simp only [mutexCount, Bool.toNat_false] at hce
        omega
      · simp only [rwwCount]
        have hcc := countB_comp_update_eval s.wst holdsRw j WSt.wLocked 0 0
          (by rw [hwj]; rfl) rfl
        have hce := inv.rww_eq
        simp only [rwwCount] at hce
        omega
      · exact inv.rwr_eq
      · intro j' hj' i
        simp only [] at hj' ⊢
        rcases eq_or_ne j' j with rfl | hne
        · rw [Function.update_same] at hj'
          exact absurd hj' (by decide)
        · rw [Function.update_noteq hne] at hj'
          exact inv.post_barrier j' hj' i
      · intro j' hj' c
        simp only [] at hj' ⊢
        rcases eq_or_ne j' j with rfl | hne
        · rw [Function.update_same] at hj'
          exact absurd hj' (by decide)
        · rw [Function.update_noteq hne] at hj'
          exact inv.fast_zero j' hj' c
      · exact inv.rw_excl
      · intro j' hj'
        simp only [] at hj'
        rcases eq_or_ne j' j with rfl | hne
        · rw [Function.update_same] at hj'
          exact absurd hj' (by decide)
        · rw [Function.update_noteq hne] at hj'
          exact inv.crit_quiet j' hj'
  | wSync j =>
    cases hwj : s.wst j
    all_goals simp only [stepExec, hwj, Option.some.injEq, reduceCtorEq] at h
    split at h
    case isFalse hq => exact Option.noConfusion h
    case isTrue hq =>
      simp only [Option.some.injEq] at h
      subst h
      refine ⟨?_, ?_, ?_, ?_, ?_, ?_, ?_, ?_⟩
      · exact inv.count_eq
      · simp only [mutexCount]
        have hcc := countB_comp_update_eval s.wst holdsMutex j WSt.wSynced 1 1
          (by rw [hwj]; rfl) rfl
        have hce := inv.mutex_eq
        simp only [mutexCount] at hce
        omega
      · simp only [rwwCount]
        have hcc := countB_comp_update_eval s.wst holdsRw j WSt.wSynced 0 0
          (by rw [hwj]; rfl) rfl
        have hce := inv.rww_eq
        simp only [rwwCount] at hce
        omega
      · exact inv.rwr_eq
      · intro j' hj' i
        simp only [] at hj' ⊢
        rcases eq_or_ne j' j with rfl | hne
        · cases hp : pendingFast (s.rst i)
          · rfl
          · have h2 := (noNpr_iff s).mp hq i
            have h3 := inNpr_of_pendingFast hp
            rw [h2] at h3
            exact absurd h3 (by decide)
        · rw [Function.update_noteq hne] at hj'
          exact inv.post_barrier j' hj' i
      · intro j' hj' c
        simp only [] at hj' ⊢
        rcases eq_or_ne j' j with rfl | hne
        · rw [Function.update_same] at hj'
          exact absurd hj' (by decide)
        · rw [Function.update_noteq hne] at hj'
          exact inv.fast_zero j' hj' c
      · exact inv.rw_excl
      · intro j' hj'
        simp only [] at hj'
        rcases eq_or_ne j' j with rfl | hne
        · rw [Function.update_same] at hj'
          exact absurd hj' (by decide)
        · rw [Function.update_noteq hne] at hj'
          exact inv.crit_quiet j' hj'
  | wDrain j =>
    cases hwj : s.wst j
    all_goals simp only [stepExec, hwj, Option.some.injEq, reduceCtorEq] at h
    subst h
    have hz : (∑ x : Fin n, (clear_fast_ctr s.fast_read_ctr).1 x) = 0 := by
      calc ∑ x : Fin n, (clear_fast_ctr s.fast_read_ctr).1 x
          = ∑ _x : Fin n, (0 : Int) :=
            Finset.sum_congr rfl fun c _ => clear_fast_ctr_fst _ c
      _ = 0 := Finset.sum_const_zero
    refine ⟨?_, ?_, ?_, ?_, ?_, ?_, ?_, ?_⟩
    · simp only [countedCount, fastSum]
      rw [hz, clear_fast_ctr_snd]
      have hce := inv.count_eq
      simp only [countedCount, fastSum] at hce
      omega
    · simp only [mutexCount]
      have hcc := countB_comp_update_eval s.wst holdsMutex j WSt.wDrained 1 1
        (by rw [hwj]; rfl) rfl
      have hce := inv.mutex_eq
      simp only [mutexCount] at hce
      omega
    · simp only [rwwCount]
      have hcc := countB_comp_update_eval s.wst holdsRw j WSt.wDrained 0 0
        (by rw [hwj]; rfl) rfl
      have hce := inv.rww_eq
      simp only [rwwCount] at hce
      omega
    · exact inv.rwr_eq
    · intro j' hj' i
      simp only [] at hj' ⊢
      rcases eq_or_ne j' j with heq | hne
      · exact inv.post_barrier j (show postBarrier (s.wst j) = true by rw [hwj]; rfl) i
      · rw [Function.update_noteq hne] at hj'
        exact inv.post_barrier j' hj' i
    · intro j' hj' c
      simp only []
      exact clear_fast_ctr_fst _ c
    · exact inv.rw_excl
    · intro j' hj'
      simp only [] at hj'
      rcases eq_or_ne j' j with rfl | hne
      · rw [Function.update_same] at hj'
        exact absurd hj' (by decide)
      · rw [Function.update_noteq hne] at hj'
        exact inv.crit_quiet j' hj'
  | wDownWrite j =>
    cases hwj : s.wst j
    all_goals simp only [stepExec, hwj, Option.some.injEq, reduceCtorEq] at h
    split at h
    case isFalse hq => exact Option.noConfusion h
    case isTrue hq =>
      simp only [Option.some.injEq] at h
      subst h
      refine ⟨?_, ?_, ?_, ?_, ?_, ?_, ?_, ?_⟩
      · exact inv.count_eq
      · simp only [mutexCount]
        have hcc := countB_comp_update_eval s.wst holdsMutex j WSt.wDowned 1 1
          (by rw [hwj]; rfl) rfl
        have hce := inv.mutex_eq
        simp only [mutexCount] at hce
        omega
      · simp only [rwwCount, Bool.toNat_true]
        have hcc := countB_comp_update_eval s.wst holdsRw j WSt.wDowned 0 1
          (by rw [hwj]; rfl) rfl
        have hce := inv.rww_eq
        rw [hq.1] at hce
        simp only [rwwCount, Bool.toNat_false] at hce
        omega
      · exact inv.rwr_eq
      · intro j' hj' i
        simp only [] at hj' ⊢
        rcases eq_or_ne j' j with heq | hne
        · exact inv.post_barrier j (show postBarrier (s.wst j) = true by rw [hwj]; rfl) i
        · rw [Function.update_noteq hne] at hj'
          exact inv.post_barrier j' hj' i
      · intro j' hj' c
        simp only [] at hj' ⊢
        rcases eq_or_ne j' j with heq | hne
        · exact inv.fast_zero j (show fastFrozen (s.wst j) = true by rw [hwj]; rfl) c
        · rw [Function.update_noteq hne] at hj'
          exact inv.fast_zero j' hj' c
      · intro _
        exact hq.2
      · intro j' hj'
        simp only [] at hj'
        rcases eq_or_ne j' j with rfl | hne
        · rw [Function.update_same] at hj'
          exact absurd hj' (by decide)
        · rw [Function.update_noteq hne] at hj'
          exact inv.crit_quiet j' hj'
  | wWait j =>
    cases hwj : s.wst j
    all_goals simp only [stepExec, hwj, Option.some.injEq, reduceCtorEq] at h
    split at h
    case isFalse hq => exact Option.noConfusion h
    case isTrue hq =>
      simp only [Option.some.injEq] at h
      subst h
      have hfz : ∀ c, s.fast_read_ctr c = 0 :=
        fun c => inv.fast_zero j (show fastFrozen (s.wst j) = true by rw [hwj]; rfl) c
      have hcz : countedCount s = 0 := by
        have hfs := fastSum_eq_zero hfz
        have hce := inv.count_eq
        rw [hq, hfs] at hce
        omega
      refine ⟨?_, ?_, ?_, ?_, ?_, ?_, ?_, ?_⟩
      · exact inv.count_eq
      · simp only [mutexCount]
        have hcc := countB_comp_update_eval s.wst holdsMutex j WSt.wCrit 1 1
          (by rw [hwj]; rfl) rfl
        have hce := inv.mutex_eq
        simp only [mutexCount] at hce
        omega
      · simp only [rwwCount]
        have hcc := countB_comp_update_eval s.wst holdsRw j WSt.wCrit 1 1
          (by rw [hwj]; rfl) rfl
        have hce := inv.rww_eq
        simp only [rwwCount] at hce
        omega
      · exact inv.rwr_eq
      · intro j' hj' i
        simp only [] at hj' ⊢
        rcases eq_or_ne j' j with heq | hne
        · exact inv.post_barrier j (show postBarrier (s.wst j) = true by rw [hwj]; rfl) i
        · rw [Function.update_noteq hne] at hj'
          exact inv.post_barrier j' hj' i
      · intro j' hj' c
        simp only [] at hj' ⊢
        rcases eq_or_ne j' j with rfl | hne
        · exact hfz c
        · rw [Function.update_noteq hne] at hj'
          exact inv.fast_zero j' hj' c
      · exact inv.rw_excl
      · intro j' hj'
        exact hcz
  | wUpWrite j =>
    cases hwj : s.wst j
    all_goals simp only [stepExec, hwj, Option.some.injEq, reduceCtorEq] at h
    subst h
    refine ⟨?_, ?_, ?_, ?_, ?_, ?_, ?_, ?_⟩
    · exact inv.count_eq
    · simp only [mutexCount]
      have hcc := countB_comp_update_eval s.wst holdsMutex j WSt.wRel 1 1
        (by rw [hwj]; rfl) rfl
      have hce := inv.mutex_eq
      simp only [mutexCount] at hce
      omega
    · simp only [rwwCount, Bool.toNat_false]
      have hcc := countB_comp_update_eval s.wst holdsRw j WSt.wRel 1 0
        (by rw [hwj]; rfl) rfl
      have hrw : s.rw_writer = true :=
        rww_true_of_stage inv (show holdsRw (s.wst j) = true by rw [hwj]; rfl)
      have hce := inv.rww_eq
      rw [hrw] at hce
      simp only [rwwCount, Bool.toNat_true] at hce
      omega
    · exact inv.rwr_eq
    · intro j' hj' i
      simp only [] at hj' ⊢
      rcases eq_or_ne j' j with heq | hne
      · exact inv.post_barrier j (show postBarrier (s.wst j) = true by rw [hwj]; rfl) i
      · rw [Function.update_noteq hne] at hj'
        exact inv.post_barrier j' hj' i
    · intro j' hj' c
      simp only [] at hj' ⊢
      rcases eq_or_ne j' j with rfl | hne
      · rw [Function.update_same] at hj'
        exact absurd hj' (by decide)
      · rw [Function.update_noteq hne] at hj'
        exact inv.fast_zero j' hj' c
    · intro hcontra
      exact Bool.noConfusion hcontra
    · intro j' hj'
      simp only [] at hj'
      rcases eq_or_ne j' j with rfl | hne
      · rw [Function.update_same] at hj'
        exact absurd hj' (by decide)
      · rw [Function.update_noteq hne] at hj'
        exact inv.crit_quiet j' hj'
  | wRelSync j =>
    cases hwj : s.wst j
    all_goals simp only [stepExec, hwj, Option.some.injEq, reduceCtorEq] at h
    split at h
    case isFalse hq => exact Option.noConfusion h
    case isTrue hq =>
      simp only [Option.some.injEq] at h
      subst h
      refine ⟨?_, ?_, ?_, ?_, ?_, ?_, ?_, ?_⟩
      · exact inv.count_eq
      · simp only [mutexCount]
        have hcc := countB_comp_update_eval s.wst holdsMutex j WSt.wRelSynced 1 1
          (by rw [hwj]; rfl) rfl
        have hce := inv.mutex_eq
        simp only [mutexCount] at hce
        omega
      · simp only [rwwCount]
        have hcc := countB_comp_update_eval s.wst holdsRw j WSt.wRelSynced 0 0
          (by rw [hwj]; rfl) rfl
        have hce := inv.rww_eq
        simp only [rwwCount] at hce
        omega
      · exact inv.rwr_eq
      · intro j' hj' i
        simp only [] at hj' ⊢
        rcases eq_or_ne j' j with heq | hne
        · exact inv.post_barrier j (show postBarrier (s.wst j) = true by rw [hwj]; rfl) i
        · rw [Function.update_noteq hne] at hj'
          exact inv.post_barrier j' hj' i
      · intro j' hj' c
        simp only [] at hj' ⊢
        rcases eq_or_ne j' j with rfl | hne
        · rw [Function.update_same] at hj'
          exact absurd hj' (by decide)
        · rw [Function.update_noteq hne] at hj'
          exact inv.fast_zero j' hj' c
      · exact inv.rw_excl
      · intro j' hj'
        simp only [] at hj'
        rcases eq_or_ne j' j with rfl | hne
        · rw [Function.update_same] at hj'
          exact absurd hj' (by decide)
        · rw [Function.update_noteq hne] at hj'
          exact inv.crit_quiet j' hj'
  | wUnlock j =>
    cases hwj : s.wst j
    all_goals simp only [stepExec, hwj, Option.some.injEq, reduceCtorEq] at h
    subst h
    refine ⟨?_, ?_, ?_, ?_, ?_, ?_, ?_, ?_⟩
    · exact inv.count_eq
    · simp only [mutexCount, Bool.toNat_false]
      have hcc := countB_comp_update_eval s.wst holdsMutex j WSt.widle 1 0
        (by rw [hwj]; rfl) rfl
      have hmx : s.writer_mutex = true :=
        mutex_true_of_stage inv (show holdsMutex (s.wst j) = true by rw [hwj]; rfl)
      have hce := inv.mutex_eq
      rw [hmx] at hce
      simp only [mutexCount, Bool.toNat_true] at hce
      omega
    · simp only [rwwCount]
      have hcc := countB_comp_update_eval s.wst holdsRw j WSt.widle 0 0
        (by rw [hwj]; rfl) rfl
      have hce := inv.rww_eq
      simp only [rwwCount] at hce
      omega
    · exact inv.rwr_eq
    · intro j' hj' i
      simp only [] at hj' ⊢
      rcases eq_or_ne j' j with rfl | hne
      · rw [Function.update_same] at hj'
        exact absurd hj' (by decide)
      · rw [Function.update_noteq hne] at hj'
        exact inv.post_barrier j' hj' i
    · intro j' hj' c
      simp only [] at hj' ⊢
      rcases eq_or_ne j' j with rfl | hne
      · rw [Function.update_same] at hj'
        exact absurd hj' (by decide)
      · rw [Function.update_noteq hne] at hj'
        exact inv.fast_zero j' hj' c
    · exact inv.rw_excl
    · intro j' hj'
      simp only [] at hj'
      rcases eq_or_ne j' j with rfl | hne
      · rw [Function.update_same] at hj'
        exact absurd hj' (by decide)
      · rw [Function.update_noteq hne] at hj'
        exact inv.crit_quiet j' hj'


/-- Running any action list preserves the invariant. -/
lemma inv_run {n r w : Nat} {s s' : Sem n r w} {ls : List (Label n r w)}
    (inv : Inv s) (h : run s ls = some s') : Inv s' := by
  induction ls generalizing s with
  | nil =>
    simp only [run, Option.some.injEq] at h
    subst h
    exact inv
  | cons l ls ih =>
    simp only [run] at h
    cases hstep : stepExec s l with
    | none => rw [hstep] at h; exact Option.noConfusion h
    | some s1 =>
      rw [hstep] at h
      exact ih (inv_step inv hstep) h


/-- Every reachable state satisfies the invariant. -/
lemma inv_reachable {n r w : Nat} {s : Sem n r w} (h : Reachable s) : Inv s := by
  obtain ⟨ls, hrun⟩ := h
  exact inv_run (inv_init n r w) hrun


/-- An open critical section is a counted state. -/
lemma counted_of_csOpen {n : Nat} {t : RSt n} (h : csOpen t = true) :
    counted t = true := by
  cases t <;> simp_all [csOpen, counted]


/-- C1: Mutual exclusion.  In every reachable state in which a writer holds
full exclusivity (its `percpu_down_write` returned, the matching
`percpu_up_write` not yet started), no reader's critical section is open,
and no reader can complete a fast-path acquire (`__this_cpu_add(+1)` step of
`update_fast_ctr`): in particular no `percpu_down_write` completes while a
reader's section is open, since completion produces exactly such a state. -/
theorem c1_mutual_exclusion {n r w : Nat} (s : Sem n r w)
    (hreach : Reachable s) (j : Fin w) (hcrit : s.wst j = .wCrit) :
    (∀ i, csOpen (s.rst i) = false) ∧
    (∀ i, stepExec s (.rAcqAdd i) = none) := by
  have inv := inv_reachable hreach
  constructor
  · intro i
    have hz := inv.crit_quiet j hcrit
    have hcf := counted_false_of_zero hz i
    cases hcs : csOpen (s.rst i)
    · rfl
    · rw [counted_of_csOpen hcs] at hcf
      exact absurd hcf (by decide)
  · intro i
    have hpf := inv.post_barrier j
      (show postBarrier (s.wst j) = true by rw [hcrit]; rfl) i
    cases hri : s.rst i
    all_goals simp only [stepExec, hri]
    rw [hri] at hpf
    simp [pendingFast] at hpf


/-- Witness for C1 at a concrete reachable state. -/
theorem c1_mutual_exclusion_witness :
    csOpen (c1State.rst 0) = false ∧ stepExec c1State (.rAcqAdd 0) = none := by
  have h := c1_mutual_exclusion c1State ⟨c1Labels, rfl⟩ 0 rfl
  exact ⟨h.1 0, h.2 0⟩


/-- C2: `percpu_down_write` performs exactly five steps in order.  Whenever
a step changes the program counter of writer `j` inside the acquire phase,
the action taken and its effect are forced: (1) from idle only
`mutex_lock(&writer_mutex)` when the mutex is free, (2) then only the
quiescence barrier, with no thread in a preempt-disabled window, (3) then
only the drain, zeroing every fast counter and adding their sum into
`slow_read_ctr`, (4) then only `down_write(&rw_sem)` when `rw_sem` is free,
(5) then only the `wait_event` exit, and only when `slow_read_ctr` is zero
— the writer reaches `wCrit` (full exclusivity) by no other route. -/
theorem c2_down_write_five_steps {n r w : Nat} (s s' : Sem n r w)
    (l : Label n r w) (j : Fin w) (hstep : stepExec s l = some s')
    (hchange : s.wst j ≠ s'.wst j) :
    (s.wst j = .widle → l = .wLock j ∧ s.writer_mutex = false ∧
      s'.wst j = .wLocked ∧ s'.writer_mutex = true) ∧
    (s.wst j = .wLocked → l = .wSync j ∧ (∀ i, inNpr (s.rst i) = false) ∧
      s'.wst j = .wSynced) ∧
    (s.wst j = .wSynced → l = .wDrain j ∧ s'.wst j = .wDrained ∧
      (∀ c, s'.fast_read_ctr c = 0) ∧
      s'.slow_read_ctr = s.slow_read_ctr + ∑ c : Fin n, s.fast_read_ctr c) ∧
    (s.wst j = .wDrained → l = .wDownWrite j ∧ s.rw_writer = false ∧
      s.rw_readers = 0 ∧ s'.rw_writer = true ∧ s'.wst j = .wDowned) ∧
    (s.wst j = .wDowned → l = .wWait j ∧ s.slow_read_ctr = 0 ∧
      s'.wst j = .wCrit) := by
  cases l with
  | rAcqStart i cpu =>
    rcases hri : s.rst i with _ | c0 | c0 | _ | _ | _ | vf | ⟨c0, vf⟩ | ⟨c0, vf⟩ | vf
    all_goals simp only [stepExec, hri, Option.some.injEq, reduceCtorEq] at hstep
    subst hstep
    exact absurd rfl hchange
  | rAcqCheck i =>
    rcases hri : s.rst i with _ | c0 | c0 | _ | _ | _ | vf | ⟨c0, vf⟩ | ⟨c0, vf⟩ | vf
    all_goals simp only [stepExec, hri, Option.some.injEq, reduceCtorEq] at hstep
    split at hstep
    all_goals subst hstep
    all_goals exact absurd rfl hchange
  | rAcqAdd i =>
    rcases hri : s.rst i with _ | c0 | c0 | _ | _ | _ | vf | ⟨c0, vf⟩ | ⟨c0, vf⟩ | vf
    all_goals simp only [stepExec, hri, Option.some.injEq, reduceCtorEq] at hstep
    subst hstep
    exact absurd rfl hchange
  | rSlowDown i =>
    rcases hri : s.rst i with _ | c0 | c0 | _ | _ | _ | vf | ⟨c0, vf⟩ | ⟨c0, vf⟩ | vf
    all_goals simp only [stepExec, hri, Option.some.injEq, reduceCtorEq] at hstep
    split at hstep
    case isTrue => exact Option.noConfusion hstep
    case isFalse =>
      simp only [Option.some.injEq] at hstep
      subst hstep
      exact absurd rfl hchange
  | rSlowInc i =>
    rcases hri : s.rst i with _ | c0 | c0 | _ | _ | _ | vf | ⟨c0, vf⟩ | ⟨c0, vf⟩ | vf
    all_goals simp only [stepExec, hri, Option.some.injEq, reduceCtorEq] at hstep
    subst hstep
    exact absurd rfl hchange
  | rSlowUp i =>
    rcases hri : s.rst i with _ | c0 | c0 | _ | _ | _ | vf | ⟨c0, vf⟩ | ⟨c0, vf⟩ | vf
    all_goals simp only [stepExec, hri, Option.some.injEq, reduceCtorEq] at hstep
    subst hstep
    exact absurd rfl hchange
  | rRelStart i cpu =>
    rcases hri : s.rst i with _ | c0 | c0 | _ | _ | _ | vf | ⟨c0, vf⟩ | ⟨c0, vf⟩ | vf
    all_goals simp only [stepExec, hri, Option.some.injEq, reduceCtorEq] at hstep
    subst hstep
    exact absurd rfl hchange
  | rRelCheck i =>
    rcases hri : s.rst i with _ | c0 | c0 | _ | _ | _ | vf | ⟨c0, vf⟩ | ⟨c0, vf⟩ | vf
    all_goals simp only [stepExec, hri, Option.some.injEq, reduceCtorEq] at hstep
    split at hstep
    all_goals subst hstep
    all_goals exact absurd rfl hchange
  | rRelDec i =>
    rcases hri : s.rst i with _ | c0 | c0 | _ | _ | _ | vf | ⟨c0, vf⟩ | ⟨c0, vf⟩ | vf
    all_goals simp only [stepExec, hri, Option.some.injEq, reduceCtorEq] at hstep
    subst hstep
    exact absurd rfl hchange
  | rRelSlowDec i =>
    rcases hri : s.rst i with _ | c0 | c0 | _ | _ | _ | vf | ⟨c0, vf⟩ | ⟨c0, vf⟩ | vf
    all_goals simp only [stepExec, hri, Option.some.injEq, reduceCtorEq] at hstep
    subst hstep
    exact absurd rfl hchange
  | wLock j0 =>
    cases hwj : s.wst j0
    all_goals simp only [stepExec, hwj, Option.some.injEq, reduceCtorEq] at hstep
    split at hstep
    case isTrue => exact Option.noConfusion hstep
    case isFalse hm =>
      rw [Bool.not_eq_true] at hm
      simp only [Option.some.injEq] at hstep
      subst hstep
      rcases eq_or_ne j0 j with heq | hne
      · subst heq
        refine ⟨?_, ?_, ?_, ?_, ?_⟩
        · intro _
          refine ⟨rfl, hm, ?_, rfl⟩
          simp only []
          exact Function.update_same j0 WSt.wLocked s.wst
        · intro hpre
          rw [hwj] at hpre
          exact absurd hpre (by decide)
        · intro hpre
          rw [hwj] at hpre
          exact absurd hpre (by decide)
        · intro hpre
          rw [hwj] at hpre
          exact absurd hpre (by decide)
        · intro hpre
          rw [hwj] at hpre
          exact absurd hpre (by decide)
      · exact absurd (Function.update_noteq (Ne.symm hne) WSt.wLocked s.wst).symm hchange
  | wSync j0 =>
    cases hwj : s.wst j0
    all_goals simp only [stepExec, hwj, Option.some.injEq, reduceCtorEq] at hstep
    split at hstep
    case isFalse => exact Option.noConfusion hstep
    case isTrue hq =>
      simp only [Option.some.injEq] at hstep
      subst hstep
      rcases eq_or_ne j0 j with heq | hne
      · subst heq
        refine ⟨?_, ?_, ?_, ?_, ?_⟩
        · intro hpre
          rw [hwj] at hpre
          exact absurd hpre (by decide)
        · intro _
          refine ⟨rfl, (noNpr_iff s).mp hq, ?_⟩
          simp only []
          exact Function.update_same j0 WSt.wSynced s.wst
        · intro hpre
          rw [hwj] at hpre
          exact absurd hpre (by decide)
        · intro hpre
          rw [hwj] at hpre
          exact absurd hpre (by decide)
        · intro hpre
          rw [hwj] at hpre
          exact absurd hpre (by decide)
      · exact absurd (Function.update_noteq (Ne.symm hne) WSt.wSynced s.wst).symm hchange
  | wDrain j0 =>
    cases hwj : s.wst j0
    all_goals simp only [stepExec, hwj, Option.some.injEq, reduceCtorEq] at hstep
    subst hstep
    rcases eq_or_ne j0 j with heq | hne
    · subst heq
      refine ⟨?_, ?_, ?_, ?_, ?_⟩
      · intro hpre
        rw [hwj] at hpre
        exact absurd hpre (by decide)
      · intro hpre
        rw [hwj] at hpre
        exact absurd hpre (by decide)
      · intro _
        refine ⟨rfl, ?_, ?_, ?_⟩
        · simp only []
          exact Function.update_same j0 WSt.wDrained s.wst
        · intro c
          simp only []
          exact clear_fast_ctr_fst _ c
        · simp only []
          rw [clear_fast_ctr_snd]
      · intro hpre
        rw [hwj] at hpre
        exact absurd hpre (by decide)
      · intro hpre
        rw [hwj] at hpre
        exact absurd hpre (by decide)
    · exact absurd (Function.update_noteq (Ne.symm hne) WSt.wDrained s.wst).symm hchange
  | wDownWrite j0 =>
    cases hwj : s.wst j0
    all_goals simp only [stepExec, hwj, Option.some.injEq, reduceCtorEq] at hstep
    split at hstep
    case isFalse => exact Option.noConfusion hstep
    case isTrue hq =>
      simp only [Option.some.injEq] at hstep
      subst hstep
      rcases eq_or_ne j0 j with heq | hne
      · subst heq
        refine ⟨?_, ?_, ?_, ?_, ?_⟩
        · intro hpre
          rw [hwj] at hpre
          exact absurd hpre (by decide)
        · intro hpre
          rw [hwj] at hpre
          exact absurd hpre (by decide)
        · intro hpre
          rw [hwj] at hpre
          exact absurd hpre (by decide)
        · intro _
          refine ⟨rfl, hq.1, hq.2, rfl, ?_⟩
          simp only []
          exact Function.update_same j0 WSt.wDowned s.wst
        · intro hpre
          rw [hwj] at hpre
          exact absurd hpre (by decide)
      · exact absurd (Function.update_noteq (Ne.symm hne) WSt.wDowned s.wst).symm hchange
  | wWait j0 =>
    cases hwj : s.wst j0
    all_goals simp only [stepExec, hwj, Option.some.injEq, reduceCtorEq] at hstep
    split at hstep
    case isFalse => exact Option.noConfusion hstep
    case isTrue hq =>
      simp only [Option.some.injEq] at hstep
      subst hstep
      rcases eq_or_ne j0 j with heq | hne
      · subst heq
        refine ⟨?_, ?_, ?_, ?_, ?_⟩
        · intro hpre
          rw [hwj] at hpre
          exact absurd hpre (by decide)
        · intro hpre
          rw [hwj] at hpre
          exact absurd hpre (by decide)
        · intro hpre
          rw [hwj] at hpre
          exact absurd hpre (by decide)
        · intro hpre
          rw [hwj] at hpre
          exact absurd hpre (by decide)
        · intro _
          refine ⟨rfl, hq, ?_⟩
          simp only []
          exact Function.update_same j0 WSt.wCrit s.wst
      · exact absurd (Function.update_noteq (Ne.symm hne) WSt.wCrit s.wst).symm hchange
  | wUpWrite j0 =>
    cases hwj : s.wst j0
    all_goals simp only [stepExec, hwj, Option.some.injEq, reduceCtorEq] at hstep
    subst hstep
    rcases eq_or_ne j0 j with heq | hne
    · subst heq
      refine ⟨?_, ?_, ?_, ?_, ?_⟩
      all_goals intro hpre
      all_goals rw [hwj] at hpre
      all_goals exact absurd hpre (by decide)
    · exact absurd (Function.update_noteq (Ne.symm hne) WSt.wRel s.wst).symm hchange
  | wRelSync j0 =>
    cases hwj : s.wst j0
    all_goals simp only [stepExec, hwj, Option.some.injEq, reduceCtorEq] at hstep
    split at hstep
    case isFalse => exact Option.noConfusion hstep
    case isTrue hq =>
      simp only [Option.some.injEq] at hstep
      subst hstep
      rcases eq_or_ne j0 j with heq | hne
      · subst heq
        refine ⟨?_, ?_, ?_, ?_, ?_⟩
        all_goals intro hpre
        all_goals rw [hwj] at hpre
        all_goals exact absurd hpre (by decide)
      · exact absurd (Function.update_noteq (Ne.symm hne) WSt.wRelSynced s.wst).symm hchange
  | wUnlock j0 =>
    cases hwj : s.wst j0
    all_goals simp only [stepExec, hwj, Option.some.injEq, reduceCtorEq] at hstep
    subst hstep
    rcases eq_or_ne j0 j with heq | hne
    · subst heq
      refine ⟨?_, ?_, ?_, ?_, ?_⟩
      all_goals intro hpre
      all_goals rw [hwj] at hpre
      all_goals exact absurd hpre (by decide)
    · exact absurd (Function.update_noteq (Ne.symm hne) WSt.widle s.wst).symm hchange


/-- Witness for C2: the first of the five steps on a fresh lock takes
`writer_mutex` and moves the writer to the post-lock stage. -/
theorem c2_down_write_five_steps_witness :
    (initSem 1 1 1).writer_mutex = false ∧
    c2State.wst 0 = .wLocked ∧ c2State.writer_mutex = true := by
  have h := c2_down_write_five_steps (initSem 1 1 1) c2State (.wLock 0) 0 rfl
    (by decide)
  have h1 := h.1 rfl
  exact ⟨h1.2.1, h1.2.2.1, h1.2.2.2⟩


/-- A count over a constantly-false family is zero. -/
lemma countB_zero_of_false {k : Nat} {f : Fin k → Bool}
    (h : ∀ x, f x = false) : countB f = 0 := by
  unfold countB
  apply Finset.sum_eq_zero
  intro x _
  rw [h x]
  rfl


/-- C3: `percpu_down_read` path selection.  From the `mutex_is_locked` test
of `update_fast_ctr(+1)`: if `writer_mutex` is unlocked, the two remaining
fast-path actions are unconditionally enabled (no blocking), increment only
the calling CPU's own counter — exactly `update_fast_ctr`'s update — and
leave `slow_read_ctr` and `rw_sem` untouched, completing the acquire.  If
`writer_mutex` is locked, the reader moves to the slow path, where it must
acquire `rw_sem` shared (blocking while a writer holds it), increments
`slow_read_ctr`, and releases `rw_sem`. -/
theorem c3_down_read_paths {n r w : Nat} (s : Sem n r w) (i : Fin r)
    (cpu : Fin n) (h : s.rst i = .acqNpr cpu) :
    (s.writer_mutex = false →
      ∃ s2, run s [.rAcqCheck i, .rAcqAdd i] = some s2 ∧
        s2.rst i = .reading true ∧
        s2.fast_read_ctr = (update_fast_ctr s.writer_mutex s.fast_read_ctr cpu 1).2 ∧
        s2.fast_read_ctr cpu = s.fast_read_ctr cpu + 1 ∧
        (∀ c, c ≠ cpu → s2.fast_read_ctr c = s.fast_read_ctr c) ∧
        s2.slow_read_ctr = s.slow_read_ctr ∧
        s2.rw_readers = s.rw_readers ∧ s2.rw_writer = s.rw_writer) ∧
    (s.writer_mutex = true →
      ∃ s1, stepExec s (.rAcqCheck i) = some s1 ∧ s1.rst i = .slowDown ∧
        s1.fast_read_ctr = s.fast_read_ctr ∧
        s1.slow_read_ctr = s.slow_read_ctr ∧
        (s1.rw_writer = false →
          ∃ s2, run s1 [.rSlowDown i, .rSlowInc i, .rSlowUp i] = some s2 ∧
            s2.rst i = .reading false ∧
            s2.slow_read_ctr = s.slow_read_ctr + 1 ∧
            s2.fast_read_ctr = s.fast_read_ctr ∧
            s2.rw_readers = s.rw_readers) ∧
        (s1.rw_writer = true →
          run s1 [.rSlowDown i, .rSlowInc i, .rSlowUp i] = none)) := by
  constructor
  · intro hm
    have h1 : stepExec s (.rAcqCheck i) =
        some { s with rst := Function.update s.rst i (RSt.acqAdd cpu) } := by
      simp [stepExec, h, hm]
    have h2 : stepExec { s with rst := Function.update s.rst i (RSt.acqAdd cpu) }
        (.rAcqAdd i) = some
        { s with
          fast_read_ctr :=
            Function.update s.fast_read_ctr cpu (s.fast_read_ctr cpu + 1)
          rst := Function.update (Function.update s.rst i (RSt.acqAdd cpu)) i
            (RSt.reading true) } := by
      simp [stepExec, Function.update_same]
    refine ⟨{ s with
              fast_read_ctr :=
                Function.update s.fast_read_ctr cpu (s.fast_read_ctr cpu + 1)
              rst := Function.update (Function.update s.rst i (RSt.acqAdd cpu))
                i (RSt.reading true) },
      ?_, ?_, ?_, ?_, ?_, rfl, rfl, rfl⟩
    · simp only [run, h1, h2]
    · simp
    · show Function.update s.fast_read_ctr cpu (s.fast_read_ctr cpu + 1) =
        (update_fast_ctr s.writer_mutex s.fast_read_ctr cpu 1).2
      rw [update_fast_ctr, hm]
      simp
    · exact Function.update_same cpu _ s.fast_read_ctr
    · intro c hc
      exact Function.update_noteq hc _ s.fast_read_ctr
  · intro hm
    have h1 : stepExec s (.rAcqCheck i) =
        some { s with rst := Function.update s.rst i RSt.slowDown } := by
      simp [stepExec, h, hm]
    refine ⟨{ s with rst := Function.update s.rst i RSt.slowDown },
      h1, ?_, rfl, rfl, ?_, ?_⟩
    · exact Function.update_same i RSt.slowDown s.rst
    · intro hrw
      have hrw2 : s.rw_writer = false := hrw
      have h2 : stepExec { s with rst := Function.update s.rst i RSt.slowDown }
          (.rSlowDown i) = some
          { s with
            rw_readers := s.rw_readers + 1
            rst := Function.update (Function.update s.rst i RSt.slowDown) i
              RSt.slowInc } := by
        simp [stepExec, Function.update_same, hrw2]
      have h3 : stepExec
          { s with
            rw_readers := s.rw_readers + 1
            rst := Function.update (Function.update s.rst i RSt.slowDown) i
              RSt.slowInc } (.rSlowInc i) = some
          { s with
            rw_readers := s.rw_readers + 1
            slow_read_ctr := s.slow_read_ctr + 1
            rst := Function.update (Function.update
              (Function.update s.rst i RSt.slowDown) i RSt.slowInc) i
              RSt.slowUp } := by
        simp [stepExec, Function.update_same]
      have h4 : stepExec
          { s with
            rw_readers := s.rw_readers + 1
            slow_read_ctr := s.slow_read_ctr + 1
            rst := Function.update (Function.update
              (Function.update s.rst i RSt.slowDown) i RSt.slowInc) i
              RSt.slowUp } (.rSlowUp i) = some
          { s with
            rw_readers := s.rw_readers + 1 - 1
            slow_read_ctr := s.slow_read_ctr + 1
            rst := Function.update (Function.update (Function.update
              (Function.update s.rst i RSt.slowDown) i RSt.slowInc) i
              RSt.slowUp) i (RSt.reading false) } := by
        simp [stepExec, Function.update_same]
      refine ⟨{ s with
                rw_readers := s.rw_readers + 1 - 1
                slow_read_ctr := s.slow_read_ctr + 1
                rst := Function.update (Function.update (Function.update
                  (Function.update s.rst i RSt.slowDown) i RSt.slowInc) i
                  RSt.slowUp) i (RSt.reading false) },
        ?_, ?_, rfl, rfl, ?_⟩
      · simp only [run, h2, h3, h4]
      · simp
      · show s.rw_readers + 1 - 1 = s.rw_readers
        omega
    · intro hrw
      have hrw2 : s.rw_writer = true := hrw
      simp [run, stepExec, Function.update_same, hrw2]


/-- Witness for C3: on a fresh lock the fast path completes and increments
this CPU's counter. -/
theorem c3_down_read_paths_witness :
    run c3State [.rAcqCheck 0, .rAcqAdd 0] = some c3Fast ∧
    c3Fast.rst 0 = .reading true ∧
    c3Fast.fast_read_ctr 0 = c3State.fast_read_ctr 0 + 1 := by
  obtain ⟨s2, h1, h2, _, h4, _⟩ := (c3_down_read_paths c3State 0 0 rfl).1 rfl
  have heq : s2 = c3Fast := Option.some.inj (h1.symm.trans rfl)
  rw [heq] at h1 h2 h4
  exact ⟨h1, h2, h4⟩


/-- C4: drain postcondition.  From any state in which the writer has passed
the quiescence barrier, the drain action
(`atomic_add(clear_fast_ctr(brw), &slow_read_ctr)`) is enabled and, in one
atomic step, zeroes every per-CPU fast counter and adds exactly the sum the
counters held immediately before into `slow_read_ctr` — transferred once,
with no entry double-counted or lost, and without touching any reader
state. -/
theorem c4_drain_postcondition {n r w : Nat} (s : Sem n r w) (j : Fin w)
    (h : s.wst j = .wSynced) :
    ∃ s', stepExec s (.wDrain j) = some s' ∧
      (∀ c, s'.fast_read_ctr c = 0) ∧
      s'.slow_read_ctr = s.slow_read_ctr + ∑ c : Fin n, s.fast_read_ctr c ∧
      s'.rst = s.rst ∧ s'.writer_mutex = s.writer_mutex ∧
      s'.wst j = .wDrained := by
  refine ⟨{ s with
            fast_read_ctr := (clear_fast_ctr s.fast_read_ctr).1
            slow_read_ctr := s.slow_read_ctr + (clear_fast_ctr s.fast_read_ctr).2
            wst := Function.update s.wst j .wDrained },
    ?_, ?_, ?_, rfl, rfl, ?_⟩
  · simp only [stepExec, h]
  · intro c
    exact clear_fast_ctr_fst _ c
  · simp only []
    rw [clear_fast_ctr_snd]
  · simp only []
    exact Function.update_same j WSt.wDrained s.wst


/-- Witness for C4 at a concrete pre-drain state. -/
theorem c4_drain_postcondition_witness :
    stepExec c4State (.wDrain 0) = some c4Drained ∧
    c4Drained.fast_read_ctr 0 = 0 ∧
    c4Drained.slow_read_ctr = c4State.slow_read_ctr + ∑ c : Fin 1, c4State.fast_read_ctr c := by
  obtain ⟨s', h1, h2, h3, _⟩ := c4_drain_postcondition c4State 0 rfl
  have heq : s' = c4Drained := Option.some.inj (h1.symm.trans rfl)
  rw [heq] at h1 h2 h3
  exact ⟨h1, h2 0, h3⟩


/-- C5: slow-path release signalling.  When a reader's release takes the
slow branch, the `atomic_dec_and_test(&slow_read_ctr)` step decrements
`slow_read_ctr` by one and issues a `wake_up_all(&write_waitq)` exactly
when the decrement brings the counter to zero; when the result is nonzero,
no wake is issued. -/
theorem c5_up_read_slow_signal {n r w : Nat} (s : Sem n r w) (i : Fin r)
    (vf : Bool) (h : s.rst i = .relSlowDec vf) :
    ∃ s', stepExec s (.rRelSlowDec i) = some s' ∧
      s'.slow_read_ctr = s.slow_read_ctr - 1 ∧
      (s'.wakes = s.wakes + 1 ↔ s'.slow_read_ctr = 0) ∧
      (s'.slow_read_ctr ≠ 0 → s'.wakes = s.wakes) := by
  refine ⟨{ s with
            slow_read_ctr := s.slow_read_ctr - 1
            wakes := if s.slow_read_ctr - 1 = 0 then s.wakes + 1 else s.wakes
            rst := Function.update s.rst i .idle },
    ?_, rfl, ?_, ?_⟩
  · simp only [stepExec, h]
  · show (if s.slow_read_ctr - 1 = 0 then s.wakes + 1 else s.wakes) =
      s.wakes + 1 ↔ s.slow_read_ctr - 1 = 0
    by_cases hz : s.slow_read_ctr - 1 = 0
    · rw [if_pos hz]
      simp [hz]
    · rw [if_neg hz]
      constructor
      · intro hcontra
        omega
      · intro hcontra
        exact absurd hcontra hz
  · intro hnz
    show (if s.slow_read_ctr - 1 = 0 then s.wakes + 1 else s.wakes) = s.wakes
    exact if_neg hnz


/-- Witness for C5 at a concrete state: here `slow_read_ctr` was zero (the
reader's own increment still lives in the fast counter, not yet drained),
so the decrement leaves it at `-1` and no wake is issued. -/
theorem c5_up_read_slow_signal_witness :
    stepExec c5State (.rRelSlowDec 0) = some c5After ∧
    c5After.slow_read_ctr = c5State.slow_read_ctr - 1 ∧
    c5After.wakes = c5State.wakes := by
  obtain ⟨s', h1, h2, _, h4⟩ := c5_up_read_slow_signal c5State 0 true rfl
  have heq : s' = c5After := Option.some.inj (h1.symm.trans rfl)
  rw [heq] at h1 h2 h4
  exact ⟨h1, h2, h4 (by rw [h2]; decide)⟩


/-- C7 is false as stated: in this reachable state reader 0 is at the slow
release branch (`relSlowDec`) while its recorded acquire path is the fast
path (`viaFast = true`): a fast-path acquirer can take the slow release
branch when a writer locked `writer_mutex` in between. -/
theorem c7_counterexample :
    run (initSem 1 1 1) c7Labels = some c7State ∧
    c7State.rst 0 = .relSlowDec true := by
  exact ⟨rfl, by decide⟩


/-- C7 (amended): the release branch is chosen solely by whether
`writer_mutex` is held at the release-time check, independently of the
acquire path the reader had taken (which the state records in `viaFast`):
slow branch iff the mutex is held then. -/
theorem c7_release_branch_by_mutex {n r w : Nat} (s : Sem n r w) (i : Fin r)
    (cpu : Fin n) (vf : Bool) (h : s.rst i = .relNpr cpu vf) :
    ∃ s', stepExec s (.rRelCheck i) = some s' ∧
      s'.rst i =
        (if s.writer_mutex then RSt.relSlowDec vf else RSt.relDec cpu vf) := by
  refine ⟨{ s with rst := Function.update s.rst i (if s.writer_mutex then RSt.relSlowDec vf else RSt.relDec cpu vf) }, ?_, ?_⟩
  · simp only [stepExec, h]
  · simp


/-- Witness for the amended C7: with `writer_mutex` held at the check, a
fast-path acquirer is sent to the slow release branch. -/
theorem c7_release_branch_by_mutex_witness :
    stepExec c7Pre (.rRelCheck 0) = some c7State ∧
    c7State.rst 0 = (if c7Pre.writer_mutex then RSt.relSlowDec true
      else RSt.relDec 0 true) := by
  obtain ⟨s', h1, h2⟩ := c7_release_branch_by_mutex c7Pre 0 0 true rfl
  have heq : s' = c7State := Option.some.inj (h1.symm.trans rfl)
  rw [heq] at h1 h2
  exact ⟨h1, h2⟩


/-- C8: construction.  `percpu_init_rwsem` fails with `-ENOMEM` exactly
when `alloc_percpu` cannot provide the per-CPU counter storage, and then
returns no lock at all; on success it returns the fully initialized lock:
per-CPU counters zeroed (as `alloc_percpu` provides), `slow_read_ctr`
zero, `writer_mutex` unlocked, `rw_sem` free, and an empty waitqueue. -/
theorem c8_init_characterization {n r w : Nat} :
    (∀ ok : Bool,
      ((∃ e, percpu_init_rwsem n r w (alloc_percpu n ok) = .error e) ↔
        ok = false)) ∧
    (∀ e, percpu_init_rwsem n r w (alloc_percpu n false) = .error e →
      e = -ENOMEM) ∧
    percpu_init_rwsem n r w (alloc_percpu n true) = .ok (initSem n r w) ∧
    (∀ c, (initSem n r w).fast_read_ctr c = 0) ∧
    (initSem n r w).slow_read_ctr = 0 ∧
    (initSem n r w).writer_mutex = false ∧
    (initSem n r w).rw_readers = 0 ∧
    (initSem n r w).rw_writer = false ∧
    (initSem n r w).wakes = 0 := by
  refine ⟨?_, ?_, rfl, fun c => rfl, rfl, rfl, rfl, rfl, rfl⟩
  · intro ok
    cases ok
    · simp [percpu_init_rwsem, alloc_percpu]
    · simp [percpu_init_rwsem, alloc_percpu]
  · intro e he
    simp [percpu_init_rwsem, alloc_percpu] at he
    omega


/-- Witness for C8: the success and failure cases at concrete sizes. -/
theorem c8_init_characterization_witness :
    percpu_init_rwsem 1 1 1 (alloc_percpu 1 true) = .ok (initSem 1 1 1) ∧
    ((∃ e, percpu_init_rwsem 1 1 1 (alloc_percpu 1 false) = .error e) ↔
      (false : Bool) = false) := by
  have h := @c8_init_characterization 1 1 1
  exact ⟨h.2.2.1, h.1 false⟩


/-- C9: a writer that reaches its `wait_event` with no reader inside any
read-side operation does not block: `slow_read_ctr` is already zero when
the wait condition is first evaluated after the drain, so the wait step is
immediately enabled. -/
theorem c9_write_no_block_when_idle {n r w : Nat} (s : Sem n r w)
    (hreach : Reachable s) (hidle : ∀ i, s.rst i = .idle) (j : Fin w)
    (h : s.wst j = .wDowned) :
    s.slow_read_ctr = 0 ∧ stepExec s (.wWait j) ≠ none := by
  have inv := inv_reachable hreach
  have hcnt : countedCount s = 0 := by
    unfold countedCount
    apply countB_zero_of_false
    intro x
    rw [hidle x]
    rfl
  have hfz : ∀ c, s.fast_read_ctr c = 0 :=
    fun c => inv.fast_zero j (show fastFrozen (s.wst j) = true by rw [h]; rfl) c
  have hfs := fastSum_eq_zero hfz
  have hce := inv.count_eq
  rw [hfs, hcnt] at hce
  have hslow : s.slow_read_ctr = 0 := by omega
  refine ⟨hslow, ?_⟩
  simp only [stepExec, h]
  rw [if_pos hslow]
  simp


/-- Witness for C9 at a concrete pre-wait state. -/
theorem c9_write_no_block_when_idle_witness :
    c9State.slow_read_ctr = 0 ∧ stepExec c9State (.wWait 0) ≠ none :=
  c9_write_no_block_when_idle c9State ⟨c9Labels, rfl⟩ (fun _ => rfl) 0 rfl


/-- Every step of a writer-free system preserves `RInv`. -/
lemma rinv_step {n r : Nat} {s s' : Sem n r 0} {l : Label n r 0}
    (hr : RInv s) (h : stepExec s l = some s') : RInv s' := by
  obtain ⟨hm, hs, hf⟩ := hr
  cases l with
  | rAcqStart i cpu =>
    rcases hri : s.rst i with _ | c0 | c0 | _ | _ | _ | vf | ⟨c0, vf⟩ | ⟨c0, vf⟩ | vf
    all_goals simp only [stepExec, hri, Option.some.injEq, reduceCtorEq] at h
    subst h
    refine ⟨hm, hs, ?_⟩
    intro i'
    simp only []
    rcases eq_or_ne i' i with rfl | hne
    · rw [Function.update_same]
      rfl
    · rw [Function.update_noteq hne]
      exact hf i'
  | rAcqCheck i =>
    rcases hri : s.rst i with _ | c0 | c0 | _ | _ | _ | vf | ⟨c0, vf⟩ | ⟨c0, vf⟩ | vf
    all_goals simp only [stepExec, hri, Option.some.injEq, reduceCtorEq] at h
    split at h
    case isTrue hcond => rw [hm] at hcond; exact absurd hcond (by decide)
    case isFalse hcond =>
      subst h
      refine ⟨hm, hs, ?_⟩
      intro i'
      simp only []
      rcases eq_or_ne i' i with rfl | hne
      · rw [Function.update_same]
        rfl
      · rw [Function.update_noteq hne]
        exact hf i'
  | rAcqAdd i =>
    rcases hri : s.rst i with _ | c0 | c0 | _ | _ | _ | vf | ⟨c0, vf⟩ | ⟨c0, vf⟩ | vf
    all_goals simp only [stepExec, hri, Option.some.injEq, reduceCtorEq] at h
    subst h
    refine ⟨hm, hs, ?_⟩
    intro i'
    simp only []
    rcases eq_or_ne i' i with rfl | hne
    · rw [Function.update_same]
      rfl
    · rw [Function.update_noteq hne]
      exact hf i'
  | rSlowDown i =>
    rcases hri : s.rst i with _ | c0 | c0 | _ | _ | _ | vf | ⟨c0, vf⟩ | ⟨c0, vf⟩ | vf
    all_goals simp only [stepExec, hri, Option.some.injEq, reduceCtorEq] at h
    have := hf i
    rw [hri] at this
    simp [fastPath] at this
  | rSlowInc i =>
    rcases hri : s.rst i with _ | c0 | c0 | _ | _ | _ | vf | ⟨c0, vf⟩ | ⟨c0, vf⟩ | vf
    all_goals simp only [stepExec, hri, Option.some.injEq, reduceCtorEq] at h
    have := hf i
    rw [hri] at this
    simp [fastPath] at this
  | rSlowUp i =>
    rcases hri : s.rst i with _ | c0 | c0 | _ | _ | _ | vf | ⟨c0, vf⟩ | ⟨c0, vf⟩ | vf
    all_goals simp only [stepExec, hri, Option.some.injEq, reduceCtorEq] at h
    have := hf i
    rw [hri] at this
    simp [fastPath] at this
  | rRelStart i cpu =>
    rcases hri : s.rst i with _ | c0 | c0 | _ | _ | _ | vf | ⟨c0, vf⟩ | ⟨c0, vf⟩ | vf
    all_goals simp only [stepExec, hri, Option.some.injEq, reduceCtorEq] at h
    subst h
    refine ⟨hm, hs, ?_⟩
    intro i'
    simp only []
    rcases eq_or_ne i' i with rfl | hne
    · rw [Function.update_same]
      rfl
    · rw [Function.update_noteq hne]
      exact hf i'
  | rRelCheck i =>
    rcases hri : s.rst i with _ | c0 | c0 | _ | _ | _ | vf | ⟨c0, vf⟩ | ⟨c0, vf⟩ | vf
    all_goals simp only [stepExec, hri, Option.some.injEq, reduceCtorEq] at h
    split at h
    case isTrue hcond => rw [hm] at hcond; exact absurd hcond (by decide)
    case isFalse hcond =>
      subst h
      refine ⟨hm, hs, ?_⟩
      intro i'
      simp only []
      rcases eq_or_ne i' i with rfl | hne
      · rw [Function.update_same]
        rfl
      · rw [Function.update_noteq hne]
        exact hf i'
  | rRelDec i =>
    rcases hri : s.rst i with _ | c0 | c0 | _ | _ | _ | vf | ⟨c0, vf⟩ | ⟨c0, vf⟩ | vf
    all_goals simp only [stepExec, hri, Option.some.injEq, reduceCtorEq] at h
    subst h
    refine ⟨hm, hs, ?_⟩
    intro i'
    simp only []
    rcases eq_or_ne i' i with rfl | hne
    · rw [Function.update_same]
      rfl
    · rw [Function.update_noteq hne]
      exact hf i'
  | rRelSlowDec i =>
    rcases hri : s.rst i with _ | c0 | c0 | _ | _ | _ | vf | ⟨c0, vf⟩ | ⟨c0, vf⟩ | vf
    all_goals simp only [stepExec, hri, Option.some.injEq, reduceCtorEq] at h
    have := hf i
    rw [hri] at this
    simp [fastPath] at this
  | wLock j => exact j.elim0
  | wSync j => exact j.elim0
  | wDrain j => exact j.elim0
  | wDownWrite j => exact j.elim0
  | wWait j => exact j.elim0
  | wUpWrite j => exact j.elim0
  | wRelSync j => exact j.elim0
  | wUnlock j => exact j.elim0


/-- Writer-free runs preserve `RInv`. -/
lemma rinv_run {n r : Nat} {s s' : Sem n r 0} {ls : List (Label n r 0)}
    (hr : RInv s) (h : run s ls = some s') : RInv s' := by
  induction ls generalizing s with
  | nil =>
    simp only [run, Option.some.injEq] at h
    subst h
    exact hr
  | cons l ls ih =>
    simp only [run] at h
    cases hstep : stepExec s l with
    | none => rw [hstep] at h; exact Option.noConfusion h
    | some s1 =>
      rw [hstep] at h
      exact ih (rinv_step hr hstep) h


/-- C6 is false as stated: in this writer-free execution every operation
took the fast path and never blocked, yet execution unit 1's fast counter
is `-1` after the reader released on a different unit than it acquired
on. -/
theorem c6_counterexample :
    run (initSem 2 1 0) c6Labels = some c6State ∧
    c6State.fast_read_ctr 1 = -1 := by
  exact ⟨rfl, by decide⟩


/-- C6 (amended): for every writer-free execution (no writer thread
exists), `writer_mutex` stays unlocked, every reader stays on the fast
path (no operation ever blocks: each reader always has its next fast-path
action enabled), `slow_read_ctr` stays zero, the SUM of the per-unit fast
counters equals the number of readers that have acquired and not yet
released — hence never negative — and once every `percpu_down_read` has a
matching completed `percpu_up_read` (all readers idle) the sum is zero.
An individual unit's counter can still go negative, as the counterexample
trace above shows. -/
theorem c6_reader_only_amended {n r : Nat} (ls : List (Label n r 0))
    (s : Sem n r 0) (h : run (initSem n r 0) ls = some s) :
    s.writer_mutex = false ∧
    (∀ i, fastPath (s.rst i) = true) ∧
    s.slow_read_ctr = 0 ∧
    fastSum s = (countedCount s : Int) ∧
    0 ≤ fastSum s ∧
    ((∀ i, s.rst i = .idle) → fastSum s = 0) ∧
    (0 < n → ∀ i, ∃ l, readerLabelOf l = some i ∧ stepExec s l ≠ none) := by
  have hrinv : RInv (initSem n r 0) := ⟨rfl, rfl, fun _ => rfl⟩
  obtain ⟨hm, hs, hf⟩ := rinv_run hrinv h
  have inv := inv_run (inv_init n r 0) h
  have hcount : fastSum s = (countedCount s : Int) := by
    have hce := inv.count_eq
    rw [hs] at hce
    omega
  refine ⟨hm, hf, hs, hcount, ?_, ?_, ?_⟩
  · rw [hcount]
    exact Int.natCast_nonneg _
  · intro hidle
    have hz : countedCount s = 0 := by
      unfold countedCount
      apply countB_zero_of_false
      intro x
      rw [hidle x]
      rfl
    rw [hcount, hz]
    rfl
  · intro hn i
    rcases hri : s.rst i with _ | c0 | c0 | _ | _ | _ | vf | ⟨c0, vf⟩ | ⟨c0, vf⟩ | vf
    · exact ⟨.rAcqStart i ⟨0, hn⟩, rfl, by simp [stepExec, hri]⟩
    · exact ⟨.rAcqCheck i, rfl, by simp [stepExec, hri]⟩
    · exact ⟨.rAcqAdd i, rfl, by simp [stepExec, hri]⟩
    · have := hf i
      rw [hri] at this
      simp [fastPath] at this
    · have := hf i
      rw [hri] at this
      simp [fastPath] at this
    · have := hf i
      rw [hri] at this
      simp [fastPath] at this
    · exact ⟨.rRelStart i ⟨0, hn⟩, rfl, by simp [stepExec, hri]⟩
    · exact ⟨.rRelCheck i, rfl, by simp [stepExec, hri]⟩
    · exact ⟨.rRelDec i, rfl, by simp [stepExec, hri]⟩
    · have := hf i
      rw [hri] at this
      simp [fastPath] at this


/-- Witness for the amended C6 at a concrete writer-free state. -/
theorem c6_reader_only_amended_witness :
    c6AmState.writer_mutex = false ∧ fastPath (c6AmState.rst 0) = true ∧
    (∃ l, readerLabelOf l = some 0 ∧ stepExec c6AmState l ≠ none) := by
  have h := c6_reader_only_amended c6AmLabels c6AmState rfl
  exact ⟨h.1, h.2.1 0, h.2.2.2.2.2.2 (by decide) 0⟩


/-- Wraparound addition of representatives represents exact addition. -/
lemma reprU32_add {z1 z2 : Int} {m1 m2 : Nat} (h1 : reprU32 z1 m1)
    (h2 : reprU32 z2 m2) : reprU32 (z1 + z2) (u32_add m1 m2) := by
  unfold reprU32 u32_add at *
  omega


/-- The unsigned image of `-1` represents `-1`. -/
lemma reprU32_neg_one : reprU32 (-1) u32_neg_one := by
  unfold reprU32 u32_neg_one
  decide


/-- The machine counters track the exact counters throughout any history:
each cell stays congruent to its exact value modulo `2^32`. -/
lemma runOpsM_repr {n : Nat} (ops : List (CtrOp n)) (fz : Fin n → Int)
    (fm : Fin n → Nat) (h : ∀ c, reprU32 (fz c) (fm c)) :
    ∀ c, reprU32 (runOpsZ ops fz c) (runOpsM ops fm c) := by
  induction ops generalizing fz fm with
  | nil => exact h
  | cons op t ih =>
    cases op with
    | inc c0 =>
      simp only [runOpsM, runOpsZ]
      apply ih
      intro c
      rcases eq_or_ne c c0 with rfl | hne
      · simp only [Function.update_same]
        have := h c
        unfold reprU32 u32_add at *
        omega
      · simp only [Function.update_noteq hne]
        exact h c
    | dec c0 =>
      simp only [runOpsM, runOpsZ]
      apply ih
      intro c
      rcases eq_or_ne c c0 with rfl | hne
      · simp only [Function.update_same]
        have := h c
        unfold reprU32 u32_add u32_neg_one at *
        omega
      · simp only [Function.update_noteq hne]
        exact h c


/-- The machine drain loop tracks the exact drain loop. -/
lemma clear_loop_u32_repr {n : Nat} (l : List (Fin n)) (fz : Fin n → Int)
    (fm : Fin n → Nat) (az : Int) (am : Nat)
    (hf : ∀ c, reprU32 (fz c) (fm c)) (ha : reprU32 az am) :
    reprU32 (clear_fast_loop l fz az).2 (clear_loop_u32 l fm am) := by
  induction l generalizing fz fm az am with
  | nil => exact ha
  | cons c cs ih =>
    simp only [clear_fast_loop, clear_loop_u32]
    apply ih
    · intro c'
      rcases eq_or_ne c' c with rfl | hne
      · simp only [Function.update_same]
        unfold reprU32
        decide
      · simp only [Function.update_noteq hne]
        exact hf c'
    · have := hf c
      unfold reprU32 u32_add at *
      omega


/-- The machine `clear_fast_ctr` represents the exact counter sum. -/
lemma clear_fast_ctr_u32_repr {n : Nat} (fz : Fin n → Int) (fm : Fin n → Nat)
    (hf : ∀ c, reprU32 (fz c) (fm c)) :
    reprU32 (∑ c : Fin n, fz c) (clear_fast_ctr_u32 fm) := by
  have h := clear_loop_u32_repr (List.finRange n) fz fm 0 0 hf
    (by unfold reprU32; decide)
  rw [show (clear_fast_loop (List.finRange n) fz 0).2 = ∑ c : Fin n, fz c from
    clear_fast_ctr_snd fz] at h
  exact h


/-- In-range representatives read back exactly under two's complement. -/
lemma toSigned_of_reprU32 {z : Int} {m : Nat} (h : reprU32 z m) (h0 : 0 ≤ z)
    (h1 : z < 2147483648) : toSigned m = z := by
  unfold reprU32 at h
  unfold toSigned
  have hm : (m : Int) = z := by omega
  have hlt : m < 2147483648 := by omega
  rw [if_pos hlt]
  exact hm


/-- C10: counter arithmetic is exact modulo `2^32`.  The fast-path
decrement is passed as the unsigned value `2^32 - 1`, and the drain
accumulates the cells in an `unsigned int`; for every history of
increments and decrements — including ones leaving individual per-CPU
cells negative — as long as the exact total (previous `slow_read_ctr` plus
the signed sum of all cells) lies in the non-negative signed 32-bit range,
adding the drained value into `slow_read_ctr` with wraparound yields
exactly the signed-arithmetic total: no reader is miscounted.  For a
balanced history the total is the number of still-active readers, so the
range condition always holds in practice. -/
theorem c10_unsigned_drain_exact {n : Nat} (ops : List (CtrOp n))
    (slowZ : Int) (slowM : Nat) (hrepr : reprU32 slowZ slowM)
    (h0 : 0 ≤ slowZ + ∑ c : Fin n, runOpsZ ops (fun _ => 0) c)
    (h1 : slowZ + (∑ c : Fin n, runOpsZ ops (fun _ => 0) c) < 2147483648) :
    u32_neg_one = 2 ^ 32 - 1 ∧
    toSigned (u32_add slowM (clear_fast_ctr_u32 (runOpsM ops (fun _ => 0)))) =
      slowZ + ∑ c : Fin n, runOpsZ ops (fun _ => 0) c := by
  constructor
  · unfold u32_neg_one
    norm_num
  · have hc := runOpsM_repr ops (fun _ => 0) (fun _ => 0)
      (fun _ => by unfold reprU32; norm_num)
    have hsum := clear_fast_ctr_u32_repr _ _ hc
    have htot := reprU32_add hrepr hsum
    exact toSigned_of_reprU32 htot h0 h1


/-- Witness for C10 at a concrete history with a negative per-unit cell. -/
theorem c10_unsigned_drain_exact_witness :
    u32_neg_one = 2 ^ 32 - 1 ∧
    toSigned (u32_add 0 (clear_fast_ctr_u32 (runOpsM c10Ops (fun _ => 0)))) =
      0 + ∑ c : Fin 2, runOpsZ c10Ops (fun _ => 0) c := by
  exact c10_unsigned_drain_exact c10Ops 0 0 (by unfold reprU32; decide)
    (by decide) (by decide)


end PercpuRwsem
